import Mathlib

/-!
Verification of the Thronos Commerce checkout core (server.js).

This file gives a shallow embedding, in Lean, of the pricing engine
(`calculateCartTotals`), the cart resolution and stock-deduction logic of the
`POST /checkout` handler, host-based tenant resolution (`getTenantByHost`),
and the referral-earning bookkeeping (`POST /stripe/webhook` and
`POST /root/referral/mark-paid`), together with theorems settling the stated
properties of those functions.

Modelling conventions:
* JavaScript numbers are embedded as `ℚ`; `Number(x) || d` on a numeric field
  becomes `jsOrQ x d` (`0`, like `NaN`, is falsy), and a field that may be
  absent is an `Option` with `Option.getD` where the code applies `|| 0`.
* `parseInt(x, 10)` on a JS number whose decimal rendering has no exponent
  truncates toward zero; it is embedded as `jsTrunc`.
* `x.toFixed(2)` on a value re-read as a number (`+v.toFixed(2)`) is embedded
  as `round2`, rounding to 2 decimal places.
* `.toLowerCase()` / `.trim()` are embedded per-character so that the kernel
  can evaluate them (`jsToLower`, `jsTrim`).
* `Date.now()` and `new Date().toISOString()` are embedded by threading an
  abstract clock value `now : ℕ`; the string renderings of the clock
  (`Date.now().toString()`, `.toString(36)`, ISO timestamps) are abstracted
  to `toString now`, which preserves their relevant property (equal ticks
  give equal strings).
* Reads and writes of the per-tenant JSON files become explicit state in
  `TenantState`; each `saveJson` is a field update of the state.
-/

section ThronosCommerce

attribute [local semireducible] Rat.add Rat.mul Rat.sub Rat.inv Rat.ofScientific

namespace Thronos

/-! ## JavaScript-value helpers -/

/-- `a || b` for numeric `a` (`0` is falsy). -/
def jsOrQ (a b : ℚ) : ℚ := if a = 0 then b else a

/-- `a || b` for integer `a` (`0` is falsy). -/
def jsOrI (a b : ℤ) : ℤ := if a = 0 then b else a

/-- `a || b` for string `a` (`''` is falsy). -/
def jsOrS (a b : String) : String := if a = "" then b else a

/-- `parseInt(q, 10)` for a JS number `q` in plain decimal rendering:
truncation toward zero. -/
def jsTrunc (q : ℚ) : ℤ := if 0 ≤ q then ⌊q⌋ else ⌈q⌉

/-- `+x.toFixed(2)`: round to two decimal places. -/
def round2 (q : ℚ) : ℚ := (round (q * 100) : ℤ) / 100

/-- `s.toLowerCase()`, embedded per character. -/
def jsToLower (s : String) : String := ⟨s.data.map Char.toLower⟩

/-- `s.toUpperCase()`, embedded per character. -/
def jsToUpper (s : String) : String := ⟨s.data.map Char.toUpper⟩

/-- `s.trim()`, embedded per character. -/
def jsTrim (s : String) : String :=
  ⟨((s.data.dropWhile Char.isWhitespace).reverse.dropWhile Char.isWhitespace).reverse⟩

/-- A rational that is a whole number of cents (two decimal places). -/
def IsCents (q : ℚ) : Prop := (q * 100).den = 1

instance (q : ℚ) : Decidable (IsCents q) := by unfold IsCents; infer_instance

/-! ## Data model (tenant catalog and config) -/

/-- A product variant: `{id, price, label, stock}`. -/
structure Variant where
  id : String
  price : Option ℚ
  label : Option String
  stock : Option ℚ
deriving DecidableEq, Repr

/-- A catalog product: `{id, name, price, stock?, variants?}`. -/
structure Product where
  id : String
  name : String
  price : ℚ
  stock : Option ℚ
  variants : Option (List Variant)
deriving DecidableEq, Repr

/-- A shipping method config entry. -/
structure ShippingMethod where
  id : String
  label : String
  base : Option ℚ
  codFee : Option ℚ
  allowedPaymentMethods : Option (List String)
deriving DecidableEq, Repr

/-- A payment method config entry. -/
structure PaymentMethod where
  id : String
  label : String
  gatewaySurchargePercent : Option ℚ
deriving DecidableEq, Repr

/-- The slice of the tenant config read by the pricing engine. -/
structure StoreConfig where
  shippingOptions : List ShippingMethod
  paymentOptions : List PaymentMethod
deriving DecidableEq, Repr

/-- A client-submitted cart item (from `cartJson`): `{id, variantId?, qty, price?}`.
`qty` is `some q` when the submitted value is numeric and `none` otherwise;
the client may also submit a `price`, which the server never reads. -/
structure ClientItem where
  id : String
  variantId : Option String
  qty : Option ℚ
  price : Option ℚ
deriving DecidableEq, Repr

/-- A server-enriched cart line (the elements of `enrichedItems`). -/
structure CartLine where
  id : String
  name : String
  variantId : Option String
  variantLabel : Option String
  price : ℚ
  qty : ℤ
deriving DecidableEq, Repr

/-- The record returned by `calculateCartTotals`. -/
structure Totals where
  subtotal : ℚ
  shippingCost : ℚ
  codFee : ℚ
  gatewayFee : ℚ
  total : ℚ
  shippingMethod : ShippingMethod
  paymentMethod : PaymentMethod
deriving DecidableEq, Repr

/-! ## Pricing engine (`calculateCartTotals`) -/

/-- `(config.shippingOptions || []).find((s) => s.id === shippingMethodId)` -/
def findShipping (config : StoreConfig) (shippingMethodId : String) : Option ShippingMethod :=
  config.shippingOptions.find? (fun s => s.id == shippingMethodId)

/-- `(config.paymentOptions || []).find((p) => p.id === paymentMethodId)` -/
def findPayment (config : StoreConfig) (paymentMethodId : String) : Option PaymentMethod :=
  config.paymentOptions.find? (fun p => p.id == paymentMethodId)

/-- The incompatible-payment-method error message thrown by the engine. -/
def incompatibleMsg : String :=
  "Ο συγκεκριμένος τρόπος πληρωμής δεν είναι διαθέσιμος για αυτή τη μέθοδο αποστολής."

/-- `calculateCartTotals(config, cartItems, shippingMethodId, paymentMethodId)`. -/
def calculateCartTotals (config : StoreConfig) (cartItems : List CartLine)
    (shippingMethodId paymentMethodId : String) : Except String Totals :=
  match findShipping config shippingMethodId with
  | none => .error "Invalid shipping method"
  | some sm =>
    match findPayment config paymentMethodId with
    | none => .error "Invalid payment method"
    | some pm =>
      let allowOk : Bool :=
        match sm.allowedPaymentMethods with
        | some allowed => allowed.contains pm.id
        | none => true
      if allowOk then
        let subtotal :=
          cartItems.foldl (fun s i => s + jsOrQ i.price 0 * ((jsOrI i.qty 1 : ℤ) : ℚ)) 0
        let shippingCost := sm.base.getD 0
        let codFee := if pm.id = "COD" then sm.codFee.getD 0 else 0
        let gatewayFee := subtotal * pm.gatewaySurchargePercent.getD 0
        .ok { subtotal := subtotal, shippingCost := shippingCost, codFee := codFee,
              gatewayFee := gatewayFee,
              total := subtotal + shippingCost + codFee + gatewayFee,
              shippingMethod := sm, paymentMethod := pm }
      else .error incompatibleMsg

/-! ## Cart resolution (the enrichment loop of `POST /checkout`) -/

/-- `Math.max(1, parseInt(ci.qty, 10) || 1)`; `none` models a value whose
`parseInt` is `NaN` (missing or non-numeric `qty`). -/
def normQty (q : Option ℚ) : ℤ :=
  match q with
  | none => 1
  | some x => max 1 (jsOrI (jsTrunc x) 1)

/-- `allProductsCatalog.find((p) => p.id === ci.id)` -/
def findProduct (catalog : List Product) (pid : String) : Option Product :=
  catalog.find? (fun p => p.id == pid)

/-- The body of the enrichment loop for one found product: resolves the
variant price and label server-side, clears an invalid variant id, and
normalizes the quantity. -/
def enrichOne (found : Product) (ci : ClientItem) : CartLine :=
  let sp0 := jsOrQ found.price 0
  let vid0 := jsTrim (ci.variantId.getD "")
  let r : ℚ × String × String :=
    if vid0 = "" then (sp0, "", vid0)
    else
      match found.variants with
      | some vs =>
        match vs.find? (fun v => v.id == vid0) with
        | some v => (jsOrQ (v.price.getD 0) sp0, v.label.getD "", vid0)
        | none => (sp0, "", "")
      | none => (sp0, "", vid0)
  { id := found.id, name := found.name,
    variantId := if r.2.2 = "" then none else some r.2.2,
    variantLabel := if r.2.1 = "" then none else some r.2.1,
    price := r.1,
    qty := normQty ci.qty }

/-- The enrichment loop: resolve each client item against the catalog;
items whose product id is unknown are skipped. -/
def resolveCartItems (catalog : List Product) : List ClientItem → List CartLine
  | [] => []
  | ci :: rest =>
    match findProduct catalog ci.id with
    | some found => enrichOne found ci :: resolveCartItems catalog rest
    | none => resolveCartItems catalog rest

/-! ## Order / stock ledger state (`POST /checkout` side effects) -/

/-- A stock-log row; product-level rows carry no variant fields. -/
structure StockLogEntry where
  id : String
  productId : String
  productName : String
  variantId : Option String
  variantLabel : Option String
  delta : ℤ
  reason : String
  orderId : String
  createdAt : String
deriving DecidableEq, Repr

/-- The order record fields relevant to the verified properties (customer
contact fields, labels and the proof hash are carried by the real record but
never read by the ledger logic). -/
structure Order where
  id : String
  tenantId : String
  productId : String
  price : ℚ
  items : List CartLine
  shippingMethodId : String
  paymentMethodId : String
  subtotal : ℚ
  shippingCost : ℚ
  codFee : ℚ
  gatewayFee : ℚ
  total : ℚ
  paymentStatus : String
  createdAt : String
deriving DecidableEq, Repr

/-- The per-tenant files read and written by the checkout handler. -/
structure TenantState where
  config : StoreConfig
  products : List Product
  orders : List Order
  stockLog : List StockLogEntry
deriving DecidableEq, Repr

/-- The checkout submission (parsed `cartJson` plus the method selections). -/
structure CheckoutRequest where
  tenantId : String
  cart : List ClientItem
  shippingMethodId : String
  paymentMethodId : String
deriving DecidableEq, Repr

/-- `prod.variants[vIdx].stock = Math.max(0, (stock || 0) - qty)` at the first
variant matching `vid`. -/
def deductVariant (vid : String) (qty : ℤ) : List Variant → List Variant
  | [] => []
  | v :: vs =>
    if v.id == vid then { v with stock := some (max 0 (v.stock.getD 0 - (qty : ℚ))) } :: vs
    else v :: deductVariant vid qty vs

/-- One iteration of the stock-deduction `forEach`: updates the first product
matching `ci.id` and returns the rows pushed onto the stock log (`[]` or one
row). -/
def deductLine (now : ℕ) (orderId createdAt : String) (ci : CartLine) :
    List Product → List Product × List StockLogEntry
  | [] => ([], [])
  | p :: ps =>
    if p.id == ci.id then
      match ci.variantId, p.variants with
      | some vid, some vs =>
        if (vs.find? (fun v => v.id == vid)).isSome then
          ({ p with variants := some (deductVariant vid ci.qty vs) } :: ps,
           [{ id := toString now ++ "_" ++ ci.id, productId := ci.id,
              productName := ci.name, variantId := some vid,
              variantLabel := ci.variantLabel, delta := -ci.qty,
              reason := "order", orderId := orderId, createdAt := createdAt }])
        else (p :: ps, [])
      | _, _ =>
        if 0 < p.stock.getD 0 then
          ({ p with stock := some (max 0 (p.stock.getD 0 - (ci.qty : ℚ))) } :: ps,
           [{ id := toString now ++ "_" ++ ci.id, productId := ci.id,
              productName := ci.name, variantId := none, variantLabel := none,
              delta := -ci.qty, reason := "order", orderId := orderId,
              createdAt := createdAt }])
        else (p :: ps, [])
    else
      let r := deductLine now orderId createdAt ci ps
      (p :: r.1, r.2)

/-- The whole stock-deduction `forEach`, threading the mutated product list
and appending pushed rows to the log in item order. -/
def deductAll (now : ℕ) (orderId createdAt : String) :
    List CartLine → List Product → List StockLogEntry → List Product × List StockLogEntry
  | [], ps, log => (ps, log)
  | ci :: rest, ps, log =>
    let r := deductLine now orderId createdAt ci ps
    deductAll now orderId createdAt rest r.1 (log ++ r.2)

/-- `app.post('/checkout')`: parse and resolve the cart, compute totals,
append the order, deduct stock and extend the stock log. Returns the final
state of the tenant files together with the handler result; an error result
is a 400 response and leaves every file untouched. -/
def postCheckout (st : TenantState) (rq : CheckoutRequest) (now : ℕ) :
    TenantState × Except String Order :=
  if rq.cart.isEmpty then (st, .error "Cart is empty")
  else
    match resolveCartItems st.products rq.cart with
    | [] => (st, .error "No valid products in cart")
    | e0 :: es =>
      let enriched := e0 :: es
      match calculateCartTotals st.config enriched rq.shippingMethodId rq.paymentMethodId with
      | .error e => (st, .error e)
      | .ok totals =>
        let orderId := toString now
        let createdAt := toString now
        let order : Order :=
          { id := orderId, tenantId := rq.tenantId, productId := e0.id, price := e0.price,
            items := enriched,
            shippingMethodId := rq.shippingMethodId, paymentMethodId := rq.paymentMethodId,
            subtotal := totals.subtotal, shippingCost := totals.shippingCost,
            codFee := totals.codFee, gatewayFee := totals.gatewayFee, total := totals.total,
            paymentStatus := if rq.paymentMethodId = "CARD" then "PENDING_STRIPE"
                             else "PENDING_COD",
            createdAt := createdAt }
        let st1 : TenantState := { st with orders := st.orders ++ [order] }
        let r := deductAll now orderId createdAt enriched st1.products st1.stockLog
        ({ st1 with products := r.1, stockLog := r.2 }, .ok order)

/-! ## Tenant resolution (`getTenantByHost` and the tenant middleware) -/

/-- A registry entry: `{id, domain, active, referral?}` (`domain` empty models
a missing or empty — falsy — domain). -/
structure Referral where
  code : String
  percent : Option ℚ
deriving DecidableEq, Repr

structure Tenant where
  id : String
  domain : String
  active : Bool
  referral : Option Referral
deriving DecidableEq, Repr

/-- `getTenantByHost(hostname)` over an explicit registry. -/
def getTenantByHost (tenants : List Tenant) (hostname : String) : Option Tenant :=
  let host := jsToLower hostname
  match tenants.find? (fun t => !(t.domain == "") && jsToLower t.domain == host) with
  | some t => some t
  | none =>
    if tenants.isEmpty then none
    else
      match tenants.find? (fun t => t.id == "demo") with
      | some t => some t
      | none =>
        match tenants.find? (fun t => t.active) with
        | some t => some t
        | none => tenants.head?

/-- The tenant-resolution middleware: a request whose host resolves to no
tenant is rejected with status 503. -/
def resolveTenant (tenants : List Tenant) (hostname : String) : Except ℕ Tenant :=
  match getTenantByHost tenants hostname with
  | none => .error 503
  | some t => .ok t

/-! ## Referral earnings (`/stripe/webhook` and `/root/referral/mark-paid`) -/

/-- An earning row of `referral_earnings.json`. -/
structure Earning where
  id : String
  tenantId : String
  refCode : String
  amountFiat : ℚ
  currency : String
  source : String
  externalId : String
  status : String
  createdAt : String
  paidAt : Option String
  paidVia : Option String
  txId : Option String
deriving DecidableEq, Repr

structure AccountTotals where
  earnedFiat : ℚ
  paidFiat : ℚ
deriving DecidableEq, Repr

/-- A referral account record (payout metadata fields are never read by the
accrual logic and are omitted). -/
structure Account where
  code : String
  percent : ℚ
  tenants : List String
  totals : AccountTotals
deriving DecidableEq, Repr

/-- The two referral files: the earnings ledger and the accounts object
(modelled as an association list keyed by code). -/
structure ReferralState where
  earnings : List Earning
  accounts : List (String × Account)
deriving DecidableEq, Repr

/-- `accounts[code]` -/
def lookupAccount (accounts : List (String × Account)) (code : String) : Option Account :=
  (accounts.find? (fun kv => kv.1 == code)).map (fun kv => kv.2)

/-- `accounts[code] = a` (replaces the entry or adds the key). -/
def setAccount : List (String × Account) → String → Account → List (String × Account)
  | [], code, a => [(code, a)]
  | kv :: rest, code, a =>
    if kv.1 == code then (code, a) :: rest else kv :: setAccount rest code a

/-- `ensureReferralAccount(code, percent)`. -/
def ensureReferralAccount (accounts : List (String × Account)) (code : String)
    (percent : ℚ) : List (String × Account) :=
  match lookupAccount accounts code with
  | some _ => accounts
  | none =>
    setAccount accounts code
      { code := code, percent := percent, tenants := [],
        totals := { earnedFiat := 0, paidFiat := 0 } }

/-- The object carried by a Stripe event (`event.data.object`). -/
structure StripeObject where
  id : String
  metadataTenantId : Option String
  amountTotal : Option ℚ
  amountPaid : Option ℚ
  currency : Option String
deriving DecidableEq, Repr

/-- A Stripe webhook event after signature verification and JSON parsing. -/
structure StripeEvent where
  type : String
  object : Option StripeObject
deriving DecidableEq, Repr

def handledEvents : List String :=
  ["checkout.session.completed", "invoice.payment_succeeded"]

/-- `app.post('/stripe/webhook')`, the earning-accrual path (signature
verification and the fire-and-forget core notification are outside the
state transition). -/
def stripeWebhook (tenants : List Tenant) (rs : ReferralState) (ev : StripeEvent)
    (now : ℕ) : ReferralState :=
  if !(handledEvents.contains ev.type) then rs
  else
    match ev.object with
    | none => rs
    | some obj =>
      let tenantId := obj.metadataTenantId.getD ""
      let amountRaw := jsOrQ (obj.amountTotal.getD 0) (jsOrQ (obj.amountPaid.getD 0) 0)
      let amountFiat := round2 (amountRaw / 100)
      if tenantId = "" ∨ amountFiat ≤ 0 then rs
      else
        match tenants.find? (fun t => t.id == tenantId) with
        | none => rs
        | some t =>
          match t.referral with
          | none => rs
          | some ref =>
            if ref.code = "" then rs
            else
              let percent := ref.percent.getD (1 / 10)
              let commission := round2 (amountFiat * percent)
              let earning : Earning :=
                { id := "re_" ++ toString now, tenantId := tenantId, refCode := ref.code,
                  amountFiat := commission,
                  currency := jsToUpper (jsOrS (obj.currency.getD "") "eur"),
                  source := if ev.type = "invoice.payment_succeeded" then "stripe_subscription"
                            else "stripe_checkout",
                  externalId := obj.id, status := "pending", createdAt := toString now,
                  paidAt := none, paidVia := none, txId := none }
              let earnings := rs.earnings ++ [earning]
              let accounts := ensureReferralAccount rs.accounts ref.code percent
              match lookupAccount accounts ref.code with
              | none => { earnings := earnings, accounts := accounts }
              | some acc =>
                let acc' : Account :=
                  { acc with
                    totals := { acc.totals with
                                earnedFiat := round2 (acc.totals.earnedFiat + commission) },
                    tenants := if acc.tenants.contains tenantId then acc.tenants
                               else acc.tenants ++ [tenantId] }
                { earnings := earnings, accounts := setAccount accounts ref.code acc' }

/-- The `POST /root/referral/mark-paid` request body (after the root-password
gate); `earningId = none` models a falsy (absent or empty) `earningId`. -/
structure MarkPaidReq where
  earningId : Option String
  refCode : String
  paidVia : Option String
  txId : Option String
deriving DecidableEq, Repr

/-- The per-row condition of the mark-paid `forEach`:
`match && e.status === 'pending'`, where `match` is
`earningId ? e.id === earningId : (e.refCode === refCode && e.status === 'pending')`. -/
def mpMatch (earningId : Option String) (refCode : String) (e : Earning) : Bool :=
  (match earningId with
   | some eid => e.id == eid
   | none => e.refCode == refCode && e.status == "pending") && e.status == "pending"

/-- The `earnings.forEach` of mark-paid: flips matching pending rows to paid
and accumulates `totalPaid` (re-rounded at every step, as in the code). -/
def markPaidStep (earningId : Option String) (refCode : String)
    (paidAt paidVia : String) (txId : Option String) :
    List Earning → ℚ → List Earning × ℚ
  | [], total => ([], total)
  | e :: rest, total =>
    if mpMatch earningId refCode e then
      let e' : Earning :=
        { e with status := "paid", paidAt := some paidAt, paidVia := some paidVia,
                 txId := txId }
      let r := markPaidStep earningId refCode paidAt paidVia txId rest
        (round2 (total + e.amountFiat))
      (e' :: r.1, r.2)
    else
      let r := markPaidStep earningId refCode paidAt paidVia txId rest total
      (e :: r.1, r.2)

/-- `app.post('/root/referral/mark-paid')`. -/
def markPaid (rs : ReferralState) (rq : MarkPaidReq) (now : ℕ) : ReferralState :=
  let paidAt := toString now
  let paidVia := jsTrim (jsOrS (rq.paidVia.getD "") "bank")
  let txId := let s := jsTrim (rq.txId.getD ""); if s = "" then none else some s
  let r := markPaidStep rq.earningId rq.refCode paidAt paidVia txId rs.earnings 0
  let codeToUpdate : Option String :=
    match rq.earningId with
    | some eid =>
      match r.1.find? (fun e => e.id == eid) with
      | some e => if e.refCode = "" then none else some e.refCode
      | none => none
    | none => if rq.refCode = "" then none else some rq.refCode
  match codeToUpdate with
  | none => { rs with earnings := r.1 }
  | some code =>
    match lookupAccount rs.accounts code with
    | none => { rs with earnings := r.1 }
    | some acc =>
      { earnings := r.1,
        accounts := setAccount rs.accounts code
          { acc with totals := { acc.totals with
                                 paidFiat := round2 (acc.totals.paidFiat + r.2) } } }

/-! ## Helper lemmas -/

theorem jsOrQ_zero (a : ℚ) : jsOrQ a 0 = a := by
  unfold jsOrQ; split <;> simp_all

theorem find?_beq_id {l : List PaymentMethod} {pm : PaymentMethod} {pmId : String}
    (h : l.find? (fun p => p.id == pmId) = some pm) : pm.id = pmId := by
  have := List.find?_some h
  simpa using this

theorem find?_beq_id_sm {l : List ShippingMethod} {sm : ShippingMethod} {smId : String}
    (h : l.find? (fun s => s.id == smId) = some sm) : sm.id = smId := by
  have := List.find?_some h
  simpa using this

theorem foldl_add_map (f : CartLine → ℚ) (l : List CartLine) (a : ℚ) :
    l.foldl (fun s i => s + f i) a = a + (l.map f).sum := by
  induction l generalizing a with
  | nil => simp
  | cons x xs ih => simp [ih, add_assoc]

/-- Inversion of a successful `calculateCartTotals`: the methods resolved, the
allow-list (when present) admits the payment method, and every component of
the returned record is determined. -/
theorem calculateCartTotals_ok {config : StoreConfig} {cartItems : List CartLine}
    {smId pmId : String} {t : Totals}
    (h : calculateCartTotals config cartItems smId pmId = .ok t) :
    findShipping config smId = some t.shippingMethod ∧
    findPayment config pmId = some t.paymentMethod ∧
    (∀ allowed, t.shippingMethod.allowedPaymentMethods = some allowed →
        allowed.contains t.paymentMethod.id = true) ∧
    t.subtotal =
      cartItems.foldl (fun s i => s + jsOrQ i.price 0 * ((jsOrI i.qty 1 : ℤ) : ℚ)) 0 ∧
    t.shippingCost = t.shippingMethod.base.getD 0 ∧
    t.codFee = (if t.paymentMethod.id = "COD" then t.shippingMethod.codFee.getD 0 else 0) ∧
    t.gatewayFee = t.subtotal * t.paymentMethod.gatewaySurchargePercent.getD 0 ∧
    t.total = t.subtotal + t.shippingCost + t.codFee + t.gatewayFee := by
  unfold calculateCartTotals at h
  split at h
  next => cases h
  next sm hs =>
    split at h
    next => cases h
    next pm hp =>
      simp only at h
      split at h
      next hall =>
        cases h
        refine ⟨by simpa using hs, by simpa using hp, ?_, by simp, by simp, by simp,
          by simp, by simp⟩
        intro allowed ha
        simp only at ha
        rw [ha] at hall
        simpa using hall
      next => cases h

theorem findPayment_id {config : StoreConfig} {pmId : String} {pm : PaymentMethod}
    (h : findPayment config pmId = some pm) : pm.id = pmId := by
  unfold findPayment at h
  simpa using List.find?_some h

theorem findShipping_id {config : StoreConfig} {smId : String} {sm : ShippingMethod}
    (h : findShipping config smId = some sm) : sm.id = smId := by
  unfold findShipping at h
  simpa using List.find?_some h

/-! ## Witness fixtures: a tiny concrete store -/

def wCfg : StoreConfig :=
  { shippingOptions :=
      [ { id := "S1", label := "Courier", base := some 3, codFee := some 2,
          allowedPaymentMethods := none },
        { id := "S2", label := "Pickup", base := some 0, codFee := none,
          allowedPaymentMethods := some ["CARD"] } ],
    paymentOptions :=
      [ { id := "COD", label := "Cash", gatewaySurchargePercent := none },
        { id := "CARD", label := "Card", gatewaySurchargePercent := some (2 / 100) } ] }

def wVariant : Variant := { id := "v1", price := some 15, label := some "Red", stock := some 4 }

def wProdA : Product :=
  { id := "pA", name := "Alpha", price := 10, stock := some 5, variants := none }

def wProdB : Product :=
  { id := "pB", name := "Beta", price := 20, stock := none, variants := some [wVariant] }

def wCatalog : List Product := [wProdA, wProdB]

def wCiA : ClientItem := { id := "pA", variantId := none, qty := some 2, price := some 1 }

def wCiB : ClientItem := { id := "pB", variantId := some "v1", qty := none, price := none }

def wCart : List ClientItem := [wCiA, wCiB]

def wLineA : CartLine :=
  { id := "pA", name := "Alpha", variantId := none, variantLabel := none, price := 10, qty := 2 }

def wLineB : CartLine :=
  { id := "pB", name := "Beta", variantId := some "v1", variantLabel := some "Red",
    price := 15, qty := 1 }

def wTotalsCart : Totals :=
  { subtotal := 35, shippingCost := 3, codFee := 2, gatewayFee := 0, total := 40,
    shippingMethod :=
      { id := "S1", label := "Courier", base := some 3, codFee := some 2,
        allowedPaymentMethods := none },
    paymentMethod := { id := "COD", label := "Cash", gatewaySurchargePercent := none } }

/-! ## Claim C1 -/

/-- `ci.price` is submitted by the client but never read by the server. -/
def eraseClientPrice (ci : ClientItem) : ClientItem := { ci with price := none }

theorem resolve_erase (catalog : List Product) (cart : List ClientItem) :
    resolveCartItems catalog (cart.map eraseClientPrice) = resolveCartItems catalog cart := by
  induction cart with
  | nil => rfl
  | cons ci rest ih =>
    simp only [List.map_cons]
    unfold resolveCartItems
    have h1 : findProduct catalog (eraseClientPrice ci).id = findProduct catalog ci.id := rfl
    rw [h1, ih]
    cases findProduct catalog ci.id with
    | none => rfl
    | some found => rfl

theorem normQty_ge_one (q : Option ℚ) : 1 ≤ normQty q := by
  unfold normQty
  cases q with
  | none => exact le_refl 1
  | some x => exact le_max_left 1 _

theorem resolve_qty_ge_one (catalog : List Product) :
    ∀ cart : List ClientItem, ∀ e ∈ resolveCartItems catalog cart, 1 ≤ e.qty
  | [], e, he => by cases he
  | ci :: rest, e, he => by
    unfold resolveCartItems at he
    cases hf : findProduct catalog ci.id with
    | none =>
      rw [hf] at he
      exact resolve_qty_ge_one catalog rest e he
    | some found =>
      rw [hf] at he
      cases he with
      | head => exact normQty_ge_one ci.qty
      | tail _ htail => exact resolve_qty_ge_one catalog rest e htail

theorem subtotal_eq_sum (items : List CartLine) (hq : ∀ e ∈ items, 1 ≤ e.qty) :
    items.foldl (fun s i => s + jsOrQ i.price 0 * ((jsOrI i.qty 1 : ℤ) : ℚ)) 0 =
      (items.map (fun i => i.price * (i.qty : ℚ))).sum := by
  rw [foldl_add_map (fun i => jsOrQ i.price 0 * ((jsOrI i.qty 1 : ℤ) : ℚ)) items 0, zero_add]
  congr 1
  apply List.map_congr_left
  intro e he
  have h1 : jsOrQ e.price 0 = e.price := jsOrQ_zero e.price
  have h2 : jsOrI e.qty 1 = e.qty := by
    unfold jsOrI
    rw [if_neg]
    intro h0
    have := hq e he
    omega
  rw [h1, h2]

/-- Claim C1: for every cart with at least one server-resolvable item and a
valid shipping/payment method pair, `calculateCartTotals` returns totals with
`total = subtotal + shippingCost + codFee + gatewayFee` exactly, where the
subtotal is the sum of server-resolved unit price times quantity over the
resolved items (client-submitted prices are ignored), the shipping cost is the
shipping method's base, and the gateway fee is the subtotal times the payment
method's surcharge fraction. -/
theorem c1_cart_totals (config : StoreConfig) (catalog : List Product)
    (cart : List ClientItem) (smId pmId : String) (sm : ShippingMethod)
    (pm : PaymentMethod) (t : Totals)
    (hne : resolveCartItems catalog cart ≠ [])
    (hs : findShipping config smId = some sm)
    (hp : findPayment config pmId = some pm)
    (hok : calculateCartTotals config (resolveCartItems catalog cart) smId pmId = .ok t) :
    t.total = t.subtotal + t.shippingCost + t.codFee + t.gatewayFee ∧
    t.subtotal = ((resolveCartItems catalog cart).map (fun i => i.price * (i.qty : ℚ))).sum ∧
    t.shippingCost = sm.base.getD 0 ∧
    t.gatewayFee = t.subtotal * pm.gatewaySurchargePercent.getD 0 ∧
    calculateCartTotals config (resolveCartItems catalog (cart.map eraseClientPrice))
      smId pmId = .ok t := by
  obtain ⟨hs2, hp2, _, hsub, hship, _, hgate, htot⟩ := calculateCartTotals_ok hok
  have hsm : t.shippingMethod = sm := by
    rw [hs] at hs2; exact (Option.some_inj.mp hs2).symm
  have hpm : t.paymentMethod = pm := by
    rw [hp] at hp2; exact (Option.some_inj.mp hp2).symm
  refine ⟨htot, ?_, by rw [hship, hsm], by rw [hgate, hpm], ?_⟩
  · rw [hsub]
    exact subtotal_eq_sum _ (resolve_qty_ge_one catalog cart)
  · rw [resolve_erase]
    exact hok

/-- Witness for C1 at the concrete store: a two-line cart with COD shipping
`S1`, totals `35 + 3 + 2 + 0 = 40`. -/
theorem c1_cart_totals_witness :
    wTotalsCart.total =
        wTotalsCart.subtotal + wTotalsCart.shippingCost + wTotalsCart.codFee +
          wTotalsCart.gatewayFee ∧
    wTotalsCart.subtotal =
      ((resolveCartItems wCatalog wCart).map (fun i => i.price * (i.qty : ℚ))).sum ∧
    wTotalsCart.shippingCost =
      (some (3 : ℚ) : Option ℚ).getD 0 ∧
    wTotalsCart.gatewayFee = wTotalsCart.subtotal * (none : Option ℚ).getD 0 ∧
    calculateCartTotals wCfg (resolveCartItems wCatalog (wCart.map eraseClientPrice))
      "S1" "COD" = .ok wTotalsCart :=
  c1_cart_totals wCfg wCatalog wCart "S1" "COD"
    { id := "S1", label := "Courier", base := some 3, codFee := some 2,
      allowedPaymentMethods := none }
    { id := "COD", label := "Cash", gatewaySurchargePercent := none }
    wTotalsCart (by decide) (by rfl) (by rfl) (by rfl)

/-! ## Claim C5 -/

def c5Cfg : StoreConfig :=
  { shippingOptions :=
      [ { id := "S", label := "Ship", base := some 0, codFee := none,
          allowedPaymentMethods := some ["CARD"] } ],
    paymentOptions := [ { id := "P", label := "Pay", gatewaySurchargePercent := none } ] }

/-- Claim C5 counterexample: shipping method `S` declares the allow-list
`["CARD"]` and the chosen payment id `"X"` is not in it, yet the engine fails
with the invalid-payment-method error (because `"X"` resolves to no payment
method), not with the incompatible-payment-method error the claim requires. -/
theorem c5_counterexample :
    (findShipping c5Cfg "S").map (fun sm => sm.allowedPaymentMethods) =
      some (some ["CARD"]) ∧
    (["CARD"].contains "X") = false ∧
    calculateCartTotals c5Cfg [] "S" "X" = .error "Invalid payment method" ∧
    ("Invalid payment method" == incompatibleMsg) = false :=
  ⟨by decide, by decide, by rfl, by decide⟩

/-- Claim C5, amended: if the chosen shipping method declares an
`allowedPaymentMethods` list that does not contain the chosen payment method
id, `calculateCartTotals` never returns totals; when the payment method id
also resolves to a configured payment method, the error is exactly the
incompatible-payment-method error (when it does not resolve, the
invalid-payment-method error is raised first). -/
theorem c5_allow_list (config : StoreConfig) (cartItems : List CartLine)
    (smId pmId : String) (sm : ShippingMethod) (allowed : List String) (pm : PaymentMethod)
    (hs : findShipping config smId = some sm)
    (ha : sm.allowedPaymentMethods = some allowed)
    (hni : allowed.contains pmId = false) :
    (calculateCartTotals config cartItems smId pmId).toOption = none ∧
    (findPayment config pmId = some pm →
      calculateCartTotals config cartItems smId pmId = .error incompatibleMsg) := by
  have key : ∀ pm2 : PaymentMethod, findPayment config pmId = some pm2 →
      calculateCartTotals config cartItems smId pmId = .error incompatibleMsg := by
    intro pm2 hp
    have hid : pm2.id = pmId := findPayment_id hp
    unfold calculateCartTotals
    rw [hs, hp]
    simp [ha, hid, hni]
    simpa using hni
  constructor
  · cases hp : findPayment config pmId with
    | none =>
      unfold calculateCartTotals
      rw [hs, hp]
      rfl
    | some pm2 => rw [key pm2 hp]; rfl
  · intro hp
    exact key pm hp

/-- Witness for C5 at the concrete store `c5Cfg`: payment id `P` resolves but
is not in the allow-list `["CARD"]`. -/
theorem c5_allow_list_witness :
    (calculateCartTotals c5Cfg [] "S" "P").toOption = none ∧
    calculateCartTotals c5Cfg [] "S" "P" = .error incompatibleMsg :=
  ⟨(c5_allow_list c5Cfg [] "S" "P"
      { id := "S", label := "Ship", base := some 0, codFee := none,
        allowedPaymentMethods := some ["CARD"] }
      ["CARD"] { id := "P", label := "Pay", gatewaySurchargePercent := none }
      (by rfl) (by rfl) (by decide)).1,
   (c5_allow_list c5Cfg [] "S" "P"
      { id := "S", label := "Ship", base := some 0, codFee := none,
        allowedPaymentMethods := some ["CARD"] }
      ["CARD"] { id := "P", label := "Pay", gatewaySurchargePercent := none }
      (by rfl) (by rfl) (by decide)).2 (by rfl)⟩

/-! ## Claim C6 -/

/-- Claim C6: in every successful totals computation the COD fee equals the
shipping method's `codFee` exactly when the chosen payment method id equals
the literal `"COD"`, and is zero for every other payment method id. -/
theorem c6_cod_fee (config : StoreConfig) (cartItems : List CartLine)
    (smId pmId : String) (t : Totals)
    (h : calculateCartTotals config cartItems smId pmId = .ok t) :
    t.paymentMethod.id = pmId ∧
    (pmId = "COD" → t.codFee = t.shippingMethod.codFee.getD 0) ∧
    (pmId ≠ "COD" → t.codFee = 0) := by
  obtain ⟨_, hp, _, _, _, hcod, _, _⟩ := calculateCartTotals_ok h
  have hid : t.paymentMethod.id = pmId := findPayment_id hp
  refine ⟨hid, ?_, ?_⟩
  · intro hcodid
    rw [hcod, if_pos (hid.trans hcodid)]
  · intro hne
    rw [hcod, if_neg (fun hc => hne (hid.symm.trans hc))]

/-- Witness for C6 at the concrete store: COD checkout applies the S1 COD fee
of 2. -/
theorem c6_cod_fee_witness :
    wTotalsCart.paymentMethod.id = "COD" ∧
    (("COD" : String) = "COD" →
      wTotalsCart.codFee = wTotalsCart.shippingMethod.codFee.getD 0) ∧
    (("COD" : String) ≠ "COD" → wTotalsCart.codFee = 0) :=
  c6_cod_fee wCfg [wLineA, wLineB] "S1" "COD" wTotalsCart (by rfl)

/-! ## Checkout-handler inversion -/

/-- Inversion of a successful `postCheckout`: the order's items are the
resolved cart, its id and timestamp come from the clock, the order is
appended, and the catalog and stock log are updated by the deduction loop. -/
theorem postCheckout_ok {st : TenantState} {rq : CheckoutRequest} {now : ℕ}
    {st2 : TenantState} {order : Order}
    (h : postCheckout st rq now = (st2, .ok order)) :
    order.items = resolveCartItems st.products rq.cart ∧
    order.id = toString now ∧
    order.createdAt = toString now ∧
    st2.config = st.config ∧
    st2.orders = st.orders ++ [order] ∧
    st2.products =
      (deductAll now (toString now) (toString now) order.items st.products st.stockLog).1 ∧
    st2.stockLog =
      (deductAll now (toString now) (toString now) order.items st.products st.stockLog).2 := by
  unfold postCheckout at h
  by_cases hcart : rq.cart.isEmpty
  · rw [if_pos hcart] at h
    simp at h
  · rw [if_neg hcart] at h
    cases hres : resolveCartItems st.products rq.cart with
    | nil =>
      rw [hres] at h
      simp at h
    | cons e0 es =>
      rw [hres] at h
      simp only at h
      cases htot : calculateCartTotals st.config (e0 :: es)
          rq.shippingMethodId rq.paymentMethodId with
      | error msg =>
        rw [htot] at h
        simp at h
      | ok totals =>
        rw [htot] at h
        simp only at h
        rw [Prod.mk.injEq] at h
        obtain ⟨hst, hord⟩ := h
        subst hst
        rw [Except.ok.injEq] at hord
        subst hord
        exact ⟨rfl, rfl, rfl, rfl, rfl, rfl, rfl⟩

/-! ## Claim C10 -/

theorem normQty_eq_floor (q : Option ℚ) :
    normQty q = (match q with | none => 1 | some x => max 1 ⌊x⌋) := by
  cases q with
  | none => rfl
  | some x =>
    unfold normQty jsOrI jsTrunc
    simp only
    by_cases hx : 0 ≤ x
    · rw [if_pos hx]
      by_cases h0 : ⌊x⌋ = 0
      · rw [if_pos h0, h0]
        omega
      · rw [if_neg h0]
    · rw [if_neg hx]
      push_neg at hx
      have hc : ⌈x⌉ ≤ 0 := by
        rw [Int.ceil_le]
        exact_mod_cast hx.le
      have hf : ⌊x⌋ ≤ 0 := Int.floor_nonpos hx.le
      by_cases h0 : ⌈x⌉ = 0
      · rw [if_pos h0]
        omega
      · rw [if_neg h0]
        omega

/-- Claim C10: the quantity stored on an order line for a resolvable product
is `max(1, floor(parsed client qty))` — zero, negative or non-numeric client
quantities normalize to 1 — so every persisted order item carries an integer
quantity of at least 1. -/
theorem c10_quantity (catalog : List Product) (cart : List ClientItem) (e : CartLine)
    (found : Product) (ci : ClientItem)
    (st : TenantState) (rq : CheckoutRequest) (now : ℕ) (st2 : TenantState) (order : Order)
    (e2 : CartLine)
    (he : e ∈ resolveCartItems catalog cart)
    (hok : postCheckout st rq now = (st2, .ok order))
    (he2 : e2 ∈ order.items) :
    1 ≤ e.qty ∧
    (enrichOne found ci).qty = (match ci.qty with | none => 1 | some x => max 1 ⌊x⌋) ∧
    order.items = resolveCartItems st.products rq.cart ∧
    1 ≤ e2.qty := by
  have hitems := (postCheckout_ok hok).1
  refine ⟨resolve_qty_ge_one catalog cart e he, ?_, hitems, ?_⟩
  · have : (enrichOne found ci).qty = normQty ci.qty := rfl
    rw [this, normQty_eq_floor]
  · rw [hitems] at he2
    exact resolve_qty_ge_one st.products rq.cart e2 he2

def wSt : TenantState := { config := wCfg, products := wCatalog, orders := [], stockLog := [] }

def wRq : CheckoutRequest :=
  { tenantId := "demo", cart := wCart, shippingMethodId := "S1", paymentMethodId := "COD" }

/-- The order produced by `postCheckout wSt wRq 7`. -/
def wOrder7 : Order :=
  { id := "7", tenantId := "demo", productId := "pA", price := 10,
    items := [wLineA, wLineB], shippingMethodId := "S1", paymentMethodId := "COD",
    subtotal := 35, shippingCost := 3, codFee := 2, gatewayFee := 0, total := 40,
    paymentStatus := "PENDING_COD", createdAt := "7" }

/-- Witness for C10: concrete resolution of the two-line cart; the second line
was submitted with a non-numeric quantity and normalizes to 1. -/
theorem c10_quantity_witness :
    1 ≤ wLineA.qty ∧
    (enrichOne wProdA wCiA).qty =
      (match wCiA.qty with | none => 1 | some x => max 1 ⌊x⌋) ∧
    ((postCheckout wSt wRq 7).2.toOption.getD wOrder7).items =
      resolveCartItems wSt.products wRq.cart ∧
    1 ≤ wLineB.qty :=
  c10_quantity wCatalog wCart wLineA wProdA wCiA wSt wRq 7
    ((postCheckout wSt wRq 7).1) wOrder7 wLineB (by decide) (by rfl) (by decide)

/-! ## Claim C4 -/

/-- Claim C4 counterexample: a cart item naming the known product `pB` but an
unknown variant id `nope` is NOT dropped: it resolves to one line with the
variant cleared and the product's base price 20, so the resolved cart is not
empty and checkout proceeds. -/
theorem c4_counterexample :
    (resolveCartItems wCatalog
        [{ id := "pB", variantId := some "nope", qty := some 1, price := none }]).map
        (fun e => (e.variantId, e.price)) = [(none, 20)] ∧
    (findProduct wCatalog "pB").isSome = true ∧
    ((wProdB.variants.getD []).find? (fun v => v.id == "nope")) = none ∧
    (resolveCartItems wCatalog
        [{ id := "pB", variantId := some "nope", qty := some 1, price := none }]).isEmpty
      = false := by
  refine ⟨by decide, by decide, by decide, by decide⟩

/-- Claim C4, amended: a cart item whose product id is unknown is silently
dropped; an unknown variant id on a known product does NOT drop the item —
the variant is cleared and the item kept at the product's base price; and a
checkout whose resolved cart is empty fails with the empty-cart error and
produces no order and no state change. -/
theorem c4_unknown_items (catalog : List Product) (cart : List ClientItem)
    (ciu ci : ClientItem) (p : Product) (vs : List Variant) (vid : String)
    (st : TenantState) (rq : CheckoutRequest) (now : ℕ)
    (hunk : findProduct catalog ciu.id = none)
    (hp : findProduct catalog ci.id = some p)
    (hvid : jsTrim (ci.variantId.getD "") = vid)
    (hvne : vid ≠ "")
    (hvs : p.variants = some vs)
    (hvnf : vs.find? (fun v => v.id == vid) = none)
    (hcartne : rq.cart ≠ [])
    (hresempty : resolveCartItems st.products rq.cart = []) :
    resolveCartItems catalog (ciu :: cart) = resolveCartItems catalog cart ∧
    resolveCartItems catalog (ci :: cart) =
      { id := p.id, name := p.name, variantId := none, variantLabel := none,
        price := jsOrQ p.price 0, qty := normQty ci.qty } :: resolveCartItems catalog cart ∧
    postCheckout st rq now = (st, .error "No valid products in cart") := by
  refine ⟨?_, ?_, ?_⟩
  · simp only [resolveCartItems, hunk]
  · have henrich : enrichOne p ci =
        { id := p.id, name := p.name, variantId := none, variantLabel := none,
          price := jsOrQ p.price 0, qty := normQty ci.qty } := by
      unfold enrichOne
      simp only
      rw [hvid, if_neg hvne, hvs]
      simp [hvnf]
    simp only [resolveCartItems, hp, henrich]
  · unfold postCheckout
    rw [if_neg (by simpa using hcartne), hresempty]

/-- Witness for C4: `zz` is an unknown product id, `nope` an unknown variant
id of the known product `pB`, and a cart resolving to nothing is rejected. -/
theorem c4_unknown_items_witness :
    resolveCartItems wCatalog
        ({ id := "zz", variantId := none, qty := some 1, price := none } :: wCart) =
      resolveCartItems wCatalog wCart ∧
    resolveCartItems wCatalog
        ({ id := "pB", variantId := some "nope", qty := some 1, price := none } :: wCart) =
      { id := wProdB.id, name := wProdB.name, variantId := none, variantLabel := none,
        price := jsOrQ wProdB.price 0,
        qty := normQty (some 1) } :: resolveCartItems wCatalog wCart ∧
    postCheckout wSt
        { tenantId := "demo",
          cart := [{ id := "zz", variantId := none, qty := some 1, price := none }],
          shippingMethodId := "S1", paymentMethodId := "COD" } 3 =
      (wSt, .error "No valid products in cart") :=
  c4_unknown_items wCatalog wCart
    { id := "zz", variantId := none, qty := some 1, price := none }
    { id := "pB", variantId := some "nope", qty := some 1, price := none }
    wProdB [wVariant] "nope" wSt
    { tenantId := "demo",
      cart := [{ id := "zz", variantId := none, qty := some 1, price := none }],
      shippingMethodId := "S1", paymentMethodId := "COD" } 3
    (by rfl) (by rfl) (by decide) (by decide) (by rfl) (by rfl) (by decide) (by rfl)

/-! ## Claim C7 -/

/-- Claim C7: when totals computation fails on the resolved cart, the
checkout handler propagates that exact error and performs no side effects —
orders, products and the stock log are all left unchanged. -/
theorem c7_totals_error (st : TenantState) (rq : CheckoutRequest) (now : ℕ)
    (msg : String)
    (hcart : rq.cart ≠ [])
    (hres : resolveCartItems st.products rq.cart ≠ [])
    (herr : calculateCartTotals st.config (resolveCartItems st.products rq.cart)
        rq.shippingMethodId rq.paymentMethodId = .error msg) :
    postCheckout st rq now = (st, .error msg) ∧
    (postCheckout st rq now).1.orders = st.orders ∧
    (postCheckout st rq now).1.products = st.products ∧
    (postCheckout st rq now).1.stockLog = st.stockLog := by
  have hmain : postCheckout st rq now = (st, .error msg) := by
    unfold postCheckout
    rw [if_neg (by simpa using hcart)]
    cases hr : resolveCartItems st.products rq.cart with
    | nil => exact absurd hr hres
    | cons e0 es =>
      rw [hr] at herr
      simp only
      rw [herr]
  exact ⟨hmain, by rw [hmain], by rw [hmain], by rw [hmain]⟩

/-- Witness for C7: shipping `S2` only allows `CARD`, so a COD checkout fails
with the incompatible-payment error and leaves the state untouched. -/
theorem c7_totals_error_witness :
    postCheckout wSt
        { tenantId := "demo", cart := wCart, shippingMethodId := "S2",
          paymentMethodId := "COD" } 3 =
      (wSt, .error incompatibleMsg) ∧
    (postCheckout wSt
        { tenantId := "demo", cart := wCart, shippingMethodId := "S2",
          paymentMethodId := "COD" } 3).1.orders = wSt.orders ∧
    (postCheckout wSt
        { tenantId := "demo", cart := wCart, shippingMethodId := "S2",
          paymentMethodId := "COD" } 3).1.products = wSt.products ∧
    (postCheckout wSt
        { tenantId := "demo", cart := wCart, shippingMethodId := "S2",
          paymentMethodId := "COD" } 3).1.stockLog = wSt.stockLog :=
  c7_totals_error wSt
    { tenantId := "demo", cart := wCart, shippingMethodId := "S2",
      paymentMethodId := "COD" } 3 incompatibleMsg
    (by decide) (by decide) (by rfl)

/-! ## Claim C9 -/

def c9Rq : CheckoutRequest :=
  { tenantId := "demo", cart := [wCiA], shippingMethodId := "S1", paymentMethodId := "COD" }

/-- Claim C9: `postCheckout` is not idempotent under retry: submitting the
same logical cart twice against the concrete store appends two distinct
orders and decrements the stock of `pA` twice (5 → 3 at quantity 2 each). -/
theorem c9_not_idempotent :
    ((postCheckout wSt c9Rq 1).1.orders.map (fun o => o.id)) = ["1"] ∧
    ((postCheckout (postCheckout wSt c9Rq 1).1 c9Rq 2).1.orders.map (fun o => o.id))
      = ["1", "2"] ∧
    (("1" : String) == "2") = false ∧
    (findProduct wSt.products "pA").map (fun p => p.stock) = some (some 5) ∧
    (findProduct (postCheckout (postCheckout wSt c9Rq 1).1 c9Rq 2).1.products "pA").map
        (fun p => p.stock) = some (some 1) ∧
    ((postCheckout (postCheckout wSt c9Rq 1).1 c9Rq 2).1.stockLog.map
        (fun r => (r.orderId, r.delta))) = [("1", -2), ("2", -2)] := by
  refine ⟨by decide, by decide, by decide, by decide, by decide, by decide⟩

/-! ## Claim C3 -/

/-- `t.domain && t.domain.toLowerCase() === host.toLowerCase()`, as a
proposition: the tenant has a (truthy) domain that matches the host
case-insensitively. -/
def hostMatches (host : String) (t : Tenant) : Prop :=
  t.domain ≠ "" ∧ jsToLower t.domain = jsToLower host

instance (host : String) (t : Tenant) : Decidable (hostMatches host t) := by
  unfold hostMatches; infer_instance

/-- `t` is the first element of `l` satisfying `p`. -/
def FirstSuch (p : Tenant → Prop) (l : List Tenant) (t : Tenant) : Prop :=
  ∃ pre post, l = pre ++ t :: post ∧ p t ∧ ∀ u ∈ pre, ¬ p u

theorem find?_aux {p : Tenant → Prop} {pb : Tenant → Bool}
    (hpb : ∀ u, pb u = true ↔ p u) :
    ∀ (pre post : List Tenant) (t : Tenant), p t → (∀ u ∈ pre, ¬ p u) →
      (pre ++ t :: post).find? pb = some t
  | [], post, t, hpt, _ => by
    simp [List.find?_cons, (hpb t).mpr hpt]
  | u :: us, post, t, hpt, hpre => by
    have hu : pb u = false := by
      cases hub : pb u with
      | false => rfl
      | true => exact absurd ((hpb u).mp hub) (hpre u (by simp))
    simp only [List.cons_append, List.find?_cons, hu]
    exact find?_aux hpb us post t hpt (fun v hv => hpre v (by simp [hv]))

theorem find?_eq_of_firstSuch {p : Tenant → Prop} {pb : Tenant → Bool}
    (hpb : ∀ u, pb u = true ↔ p u) {l : List Tenant} {t : Tenant}
    (h : FirstSuch p l t) : l.find? pb = some t := by
  obtain ⟨pre, post, rfl, hpt, hpre⟩ := h
  exact find?_aux hpb pre post t hpt hpre

theorem find?_eq_none_of_none {p : Tenant → Prop} {pb : Tenant → Bool}
    (hpb : ∀ u, pb u = true ↔ p u) {l : List Tenant}
    (h : ∀ u ∈ l, ¬ p u) : l.find? pb = none :=
  List.find?_eq_none.mpr (fun x hx hbx => h x hx ((hpb x).mp hbx))

theorem hostMatches_bool (host : String) :
    ∀ u : Tenant,
      (!(u.domain == "") && (jsToLower u.domain == jsToLower host)) = true ↔
        hostMatches host u := by
  intro u
  unfold hostMatches
  constructor
  · intro h
    rw [Bool.and_eq_true] at h
    refine ⟨by simpa using h.1, by simpa using h.2⟩
  · intro ⟨h1, h2⟩
    rw [Bool.and_eq_true]
    exact ⟨by simpa using h1, by simpa using h2⟩

theorem demo_bool : ∀ u : Tenant, (u.id == "demo") = true ↔ u.id = "demo" := by
  intro u; simp

theorem active_bool : ∀ u : Tenant, u.active = true ↔ u.active = true :=
  fun u => Iff.rfl

/-- Claim C3: tenant resolution returns the first tenant whose domain matches
the host case-insensitively; with no match and a non-empty registry it falls
back, in order, to the tenant with id `demo`, then to the first tenant with
`active = true`, then to the first tenant in registry order; an empty
registry resolves to nothing and the request is rejected with status 503. -/
theorem c3_tenant_resolution (tenants : List Tenant) (host : String) :
    (tenants = [] → resolveTenant tenants host = .error 503) ∧
    (∀ t, FirstSuch (hostMatches host) tenants t → resolveTenant tenants host = .ok t) ∧
    ((∀ u ∈ tenants, ¬ hostMatches host u) →
      (∀ t, FirstSuch (fun u => u.id = "demo") tenants t →
        resolveTenant tenants host = .ok t) ∧
      ((∀ u ∈ tenants, u.id ≠ "demo") →
        (∀ t, FirstSuch (fun u => u.active = true) tenants t →
          resolveTenant tenants host = .ok t) ∧
        ((∀ u ∈ tenants, u.active ≠ true) →
          ∀ t rest, tenants = t :: rest → resolveTenant tenants host = .ok t))) := by
  refine ⟨?_, ?_, ?_⟩
  · rintro rfl
    rfl
  · intro t hfs
    unfold resolveTenant getTenantByHost
    simp only
    rw [find?_eq_of_firstSuch (hostMatches_bool host) hfs]
  · intro hnm
    have hfind1 :
        tenants.find? (fun t => !(t.domain == "") && (jsToLower t.domain == jsToLower host))
          = none :=
      find?_eq_none_of_none (hostMatches_bool host) hnm
    refine ⟨?_, ?_⟩
    · intro t hfs
      have hne : tenants.isEmpty = false := by
        obtain ⟨pre, post, rfl, _, _⟩ := hfs
        cases pre <;> rfl
      unfold resolveTenant getTenantByHost
      simp only
      rw [hfind1, hne, find?_eq_of_firstSuch demo_bool hfs]
      rfl
    · intro hnd
      have hfind2 : tenants.find? (fun t => t.id == "demo") = none :=
        find?_eq_none_of_none demo_bool (fun u hu => hnd u hu)
      refine ⟨?_, ?_⟩
      · intro t hfs
        have hne : tenants.isEmpty = false := by
          obtain ⟨pre, post, rfl, _, _⟩ := hfs
          cases pre <;> rfl
        unfold resolveTenant getTenantByHost
        simp only
        rw [hfind1, hne, hfind2, find?_eq_of_firstSuch active_bool hfs]
        rfl
      · intro hna t rest hcons
        have hfind3 : tenants.find? (fun t => t.active) = none :=
          find?_eq_none_of_none active_bool (fun u hu => hna u hu)
        have hne : tenants.isEmpty = false := by rw [hcons]; rfl
        unfold resolveTenant getTenantByHost
        simp only
        rw [hfind1, hne, hfind2, hfind3, hcons]
        rfl

def wTenantA : Tenant := { id := "a", domain := "a.com", active := false, referral := none }

def wTenantDemo : Tenant :=
  { id := "demo", domain := "d.com", active := false, referral := none }

def wTenantC : Tenant := { id := "c", domain := "c.com", active := true, referral := none }

def wTenantB : Tenant := { id := "b", domain := "b.com", active := false, referral := none }

/-- Witness for C3: the five scenarios at concrete registries — empty
registry, case-insensitive domain match, demo fallback, active fallback and
first-tenant fallback. -/
theorem c3_tenant_resolution_witness :
    resolveTenant [] "x.com" = .error 503 ∧
    resolveTenant [wTenantA, wTenantDemo, wTenantC] "A.COM" = .ok wTenantA ∧
    resolveTenant [wTenantA, wTenantDemo, wTenantC] "x.com" = .ok wTenantDemo ∧
    resolveTenant [wTenantA, wTenantC] "x.com" = .ok wTenantC ∧
    resolveTenant [wTenantA, wTenantB] "x.com" = .ok wTenantA :=
  ⟨(c3_tenant_resolution [] "x.com").1 rfl,
   (c3_tenant_resolution [wTenantA, wTenantDemo, wTenantC] "A.COM").2.1 wTenantA
     ⟨[], [wTenantDemo, wTenantC], rfl, by decide, by decide⟩,
   ((c3_tenant_resolution [wTenantA, wTenantDemo, wTenantC] "x.com").2.2 (by decide)).1
     wTenantDemo ⟨[wTenantA], [wTenantC], rfl, by decide, by decide⟩,
   (((c3_tenant_resolution [wTenantA, wTenantC] "x.com").2.2 (by decide)).2
     (by decide)).1 wTenantC ⟨[wTenantA], [], rfl, by decide, by decide⟩,
   ((((c3_tenant_resolution [wTenantA, wTenantB] "x.com").2.2 (by decide)).2
     (by decide)).2 (by decide)) wTenantA [wTenantB] rfl⟩

/-! ## Cent-rounding lemmas -/

theorem isCents_iff (q : ℚ) : IsCents q ↔ ∃ n : ℤ, q * 100 = (n : ℚ) := by
  unfold IsCents
  constructor
  · intro h
    exact ⟨(q * 100).num, ((Rat.den_eq_one_iff _).mp h).symm⟩
  · rintro ⟨n, hn⟩
    rw [hn]
    exact Rat.den_intCast n

theorem isCents_add {a b : ℚ} (ha : IsCents a) (hb : IsCents b) : IsCents (a + b) := by
  rw [isCents_iff] at ha hb ⊢
  obtain ⟨na, hna⟩ := ha
  obtain ⟨nb, hnb⟩ := hb
  exact ⟨na + nb, by push_cast; rw [add_mul, hna, hnb]⟩

theorem round2_eq_self {q : ℚ} (h : IsCents q) : round2 q = q := by
  obtain ⟨n, hn⟩ := (isCents_iff q).mp h
  unfold round2
  rw [hn, round_intCast, eq_comm, eq_div_iff (by norm_num : (100 : ℚ) ≠ 0)]
  exact hn

theorem round2_isCents (q : ℚ) : IsCents (round2 q) := by
  rw [isCents_iff]
  refine ⟨round (q * 100), ?_⟩
  unfold round2
  rw [div_mul_cancel₀]
  norm_num

theorem round2_add_self {a b : ℚ} (ha : IsCents a) (hb : IsCents b) :
    round2 (a + b) = a + b :=
  round2_eq_self (isCents_add ha hb)

theorem round2_round2 (q : ℚ) : round2 (round2 q) = round2 q :=
  round2_eq_self (round2_isCents q)

/-! ## Mark-paid helper lemmas -/

theorem markPaidStep_earnings (earningId : Option String) (refCode : String)
    (paidAt paidVia : String) (txId : Option String) :
    ∀ (earnings : List Earning) (total : ℚ),
      (markPaidStep earningId refCode paidAt paidVia txId earnings total).1 =
        earnings.map (fun e =>
          if mpMatch earningId refCode e then
            { e with status := "paid", paidAt := some paidAt, paidVia := some paidVia,
                     txId := txId }
          else e)
  | [], total => rfl
  | e :: rest, total => by
    unfold markPaidStep
    by_cases hm : mpMatch earningId refCode e = true
    · rw [if_pos hm]
      simp only [List.map_cons, if_pos hm]
      exact congrArg (List.cons _)
        (markPaidStep_earnings earningId refCode paidAt paidVia txId rest _)
    · rw [if_neg hm]
      simp only [List.map_cons, if_neg hm]
      exact congrArg (List.cons _)
        (markPaidStep_earnings earningId refCode paidAt paidVia txId rest _)

theorem markPaidStep_total (earningId : Option String) (refCode : String)
    (paidAt paidVia : String) (txId : Option String) :
    ∀ (earnings : List Earning) (total : ℚ), IsCents total →
      (∀ e ∈ earnings, IsCents e.amountFiat) →
      (markPaidStep earningId refCode paidAt paidVia txId earnings total).2 =
        total +
          ((earnings.filter (mpMatch earningId refCode)).map (fun e => e.amountFiat)).sum
  | [], total, _, _ => by simp [markPaidStep]
  | e :: rest, total, htot, hall => by
    unfold markPaidStep
    by_cases hm : mpMatch earningId refCode e = true
    · rw [if_pos hm]
      simp only
      rw [markPaidStep_total earningId refCode paidAt paidVia txId rest
        (round2 (total + e.amountFiat))
        (round2_isCents _) (fun x hx => hall x (by simp [hx]))]
      rw [round2_add_self htot (hall e (by simp))]
      have hf : (e :: rest).filter (mpMatch earningId refCode) =
          e :: rest.filter (mpMatch earningId refCode) := by
        rw [List.filter_cons, if_pos hm]
      rw [hf, List.map_cons, List.sum_cons]
      ring
    · rw [if_neg hm]
      simp only
      rw [markPaidStep_total earningId refCode paidAt paidVia txId rest total htot
        (fun x hx => hall x (by simp [hx]))]
      have hf : (e :: rest).filter (mpMatch earningId refCode) =
          rest.filter (mpMatch earningId refCode) := by
        rw [List.filter_cons, if_neg hm]
      rw [hf]

theorem lookupAccount_set (l : List (String × Account)) (code : String) (a : Account) :
    lookupAccount (setAccount l code a) code = some a := by
  induction l with
  | nil => simp [setAccount, lookupAccount]
  | cons kv rest ih =>
    unfold setAccount
    by_cases hk : (kv.1 == code) = true
    · rw [if_pos hk]
      simp [lookupAccount]
    · rw [if_neg hk]
      have hk2 : (kv.1 == code) = false := by rwa [Bool.not_eq_true] at hk
      unfold lookupAccount at ih ⊢
      rw [List.find?_cons]
      simp only [hk2]
      exact ih

theorem isCents_zero : IsCents 0 := by
  rw [isCents_iff]
  exact ⟨0, by norm_num⟩

theorem isCents_listSum : ∀ l : List ℚ, (∀ x ∈ l, IsCents x) → IsCents l.sum
  | [], _ => by simpa using isCents_zero
  | x :: rest, h => by
    rw [List.sum_cons]
    exact isCents_add (h x (by simp))
      (isCents_listSum rest (fun y hy => h y (by simp [hy])))

theorem markPaidStep_total_nomatch (earningId : Option String) (refCode : String)
    (paidAt paidVia : String) (txId : Option String) :
    ∀ (earnings : List Earning) (total : ℚ),
      (∀ e ∈ earnings, mpMatch earningId refCode e = false) →
      (markPaidStep earningId refCode paidAt paidVia txId earnings total).2 = total
  | [], _, _ => rfl
  | e :: rest, total, h => by
    unfold markPaidStep
    rw [if_neg (by simp [h e (by simp)])]
    exact markPaidStep_total_nomatch earningId refCode paidAt paidVia txId rest total
      (fun x hx => h x (by simp [hx]))

/-- The earnings written by `markPaid` are those produced by the `forEach`,
in every account-update branch. -/
theorem markPaid_earnings (rs : ReferralState) (rq : MarkPaidReq) (now : ℕ) :
    (markPaid rs rq now).earnings =
      (markPaidStep rq.earningId rq.refCode (toString now)
        (jsTrim (jsOrS (rq.paidVia.getD "") "bank"))
        (if jsTrim (rq.txId.getD "") = "" then none else some (jsTrim (rq.txId.getD "")))
        rs.earnings 0).1 := by
  unfold markPaid
  simp only
  split
  · rfl
  · split
    · rfl
    · rfl

theorem mpMatch_none (c : String) (e : Earning) :
    mpMatch none c e = (e.refCode == c && e.status == "pending") := by
  unfold mpMatch
  simp only
  rw [Bool.and_assoc, Bool.and_self]

theorem setAccount_eq_self : ∀ (l : List (String × Account)) (code : String) (a : Account),
    lookupAccount l code = some a → setAccount l code a = l
  | [], code, a, h => by simp [lookupAccount] at h
  | kv :: rest, code, a, h => by
    unfold setAccount
    unfold lookupAccount at h
    rw [List.find?_cons] at h
    by_cases hk : (kv.1 == code) = true
    · simp only [hk] at h
      rw [if_pos hk]
      have ha : a = kv.2 := by
        simpa using h.symm
      have hcode : code = kv.1 := by
        have := eq_of_beq hk
        exact this.symm
      rw [ha, hcode]
    · have hk2 : (kv.1 == code) = false := by rwa [Bool.not_eq_true] at hk
      simp only [hk2] at h
      rw [if_neg hk]
      rw [setAccount_eq_self rest code a (by unfold lookupAccount; exact h)]

theorem lookupAccount_mem {l : List (String × Account)} {code : String} {a : Account}
    (h : lookupAccount l code = some a) : ∃ kv ∈ l, kv.2 = a := by
  unfold lookupAccount at h
  cases hf : l.find? (fun kv => kv.1 == code) with
  | none => rw [hf] at h; cases h
  | some kv =>
    rw [hf] at h
    exact ⟨kv, List.mem_of_find?_eq_some hf, by simpa using h⟩

/-- The webhook accrual path: one pending earning row of `round2 (A * p)` is
appended for the tenant's referral code and the account's `earnedFiat` grows
by exactly that amount. -/
theorem stripeWebhook_spec (tenants : List Tenant) (rs : ReferralState) (ev : StripeEvent)
    (now : ℕ) (obj : StripeObject) (tid : String) (t : Tenant) (ref : Referral) (p A : ℚ)
    (h1 : ev.object = some obj)
    (h2 : handledEvents.contains ev.type = true)
    (h3 : obj.metadataTenantId = some tid)
    (h4 : tid ≠ "")
    (h5 : tenants.find? (fun u => u.id == tid) = some t)
    (h6 : t.referral = some ref)
    (h7 : ref.code ≠ "")
    (h8 : ref.percent = some p)
    (h9 : A = round2 (jsOrQ (obj.amountTotal.getD 0) (jsOrQ (obj.amountPaid.getD 0) 0) / 100))
    (h10 : 0 < A)
    (h11 : IsCents (((lookupAccount rs.accounts ref.code).map
        (fun a => a.totals.earnedFiat)).getD 0)) :
    (stripeWebhook tenants rs ev now).earnings.map
        (fun x => (x.refCode, x.amountFiat, x.status)) =
      rs.earnings.map (fun x => (x.refCode, x.amountFiat, x.status)) ++
        [(ref.code, round2 (A * p), "pending")] ∧
    (lookupAccount (stripeWebhook tenants rs ev now).accounts ref.code).map
        (fun a => a.totals.earnedFiat) =
      some ((((lookupAccount rs.accounts ref.code).map
        (fun a => a.totals.earnedFiat)).getD 0) + round2 (A * p)) := by
  subst h9
  have hnot : ¬(tid = "" ∨
      round2 (jsOrQ (obj.amountTotal.getD 0) (jsOrQ (obj.amountPaid.getD 0) 0) / 100)
        ≤ 0) := by
    push_neg
    exact ⟨h4, h10⟩
  cases hacc : lookupAccount rs.accounts ref.code with
  | some acc =>
    have h11a : IsCents acc.totals.earnedFiat := by
      rw [hacc] at h11
      simpa using h11
    have hcompute : stripeWebhook tenants rs ev now =
        { earnings := rs.earnings ++
            [{ id := "re_" ++ toString now, tenantId := tid, refCode := ref.code,
               amountFiat := round2 (round2 (jsOrQ (obj.amountTotal.getD 0)
                 (jsOrQ (obj.amountPaid.getD 0) 0) / 100) * p),
               currency := jsToUpper (jsOrS (obj.currency.getD "") "eur"),
               source := if ev.type = "invoice.payment_succeeded" then "stripe_subscription"
                         else "stripe_checkout",
               externalId := obj.id, status := "pending", createdAt := toString now,
               paidAt := none, paidVia := none, txId := none }],
          accounts := setAccount rs.accounts ref.code
            { acc with
              totals := { acc.totals with
                earnedFiat := round2 (acc.totals.earnedFiat +
                  round2 (round2 (jsOrQ (obj.amountTotal.getD 0)
                    (jsOrQ (obj.amountPaid.getD 0) 0) / 100) * p)) },
              tenants := if acc.tenants.contains tid then acc.tenants
                         else acc.tenants ++ [tid] } } := by
      unfold stripeWebhook
      simp only [h1, h2, h3, h5, h6, h8, Bool.not_true, Bool.false_eq_true, if_false,
        Option.getD_some]
      rw [if_neg hnot, if_neg h7]
      unfold ensureReferralAccount
      rw [hacc]
      simp only
      rw [hacc]
    refine ⟨?_, ?_⟩
    · rw [hcompute]
      simp
    · rw [hcompute]
      simp only [lookupAccount_set]
      rw [round2_add_self h11a (round2_isCents _)]
      simp [hacc]
  | none =>
    have hcompute : stripeWebhook tenants rs ev now =
        { earnings := rs.earnings ++
            [{ id := "re_" ++ toString now, tenantId := tid, refCode := ref.code,
               amountFiat := round2 (round2 (jsOrQ (obj.amountTotal.getD 0)
                 (jsOrQ (obj.amountPaid.getD 0) 0) / 100) * p),
               currency := jsToUpper (jsOrS (obj.currency.getD "") "eur"),
               source := if ev.type = "invoice.payment_succeeded" then "stripe_subscription"
                         else "stripe_checkout",
               externalId := obj.id, status := "pending", createdAt := toString now,
               paidAt := none, paidVia := none, txId := none }],
          accounts := setAccount (setAccount rs.accounts ref.code
            { code := ref.code, percent := p, tenants := [],
              totals := { earnedFiat := 0, paidFiat := 0 } }) ref.code
            { code := ref.code, percent := p, tenants := [tid],
              totals := { earnedFiat := round2 (0 +
                round2 (round2 (jsOrQ (obj.amountTotal.getD 0)
                  (jsOrQ (obj.amountPaid.getD 0) 0) / 100) * p)), paidFiat := 0 } } } := by
      unfold stripeWebhook
      simp only [h1, h2, h3, h5, h6, h8, Bool.not_true, Bool.false_eq_true, if_false,
        Option.getD_some]
      rw [if_neg hnot, if_neg h7]
      unfold ensureReferralAccount
      rw [hacc]
      simp only
      rw [lookupAccount_set]
      simp
    refine ⟨?_, ?_⟩
    · rw [hcompute]
      simp
    · rw [hcompute]
      simp only [lookupAccount_set]
      rw [zero_add, round2_round2]
      simp [hacc]

/-- The batch mark-paid action: only pending rows of the requested code
change (they become paid, amounts untouched), and the account's `paidFiat`
grows by exactly the sum of the transitioned amounts. -/
theorem markPaid_batch_spec (rs2 : ReferralState) (rq2 : MarkPaidReq) (now2 : ℕ)
    (acc2 : Account) (c : String) (i : ℕ) (e e' : Earning)
    (g1 : rq2.earningId = none) (g2 : rq2.refCode = c) (g3 : c ≠ "")
    (g4 : lookupAccount rs2.accounts c = some acc2)
    (g5 : ∀ x ∈ rs2.earnings, IsCents x.amountFiat)
    (g6 : IsCents acc2.totals.paidFiat)
    (g7 : rs2.earnings.get? i = some e)
    (g8 : (markPaid rs2 rq2 now2).earnings.get? i = some e') :
    (e.status ≠ "pending" → e' = e) ∧
    (e.refCode ≠ c → e' = e) ∧
    (e.refCode = c → e.status = "pending" →
      e'.status = "paid" ∧ e'.amountFiat = e.amountFiat ∧ e'.id = e.id ∧
      e'.refCode = e.refCode) ∧
    (lookupAccount (markPaid rs2 rq2 now2).accounts c).map (fun a => a.totals.paidFiat) =
      some (acc2.totals.paidFiat +
        ((rs2.earnings.filter (fun x => x.refCode == c && x.status == "pending")).map
          (fun x => x.amountFiat)).sum) := by
  rw [markPaid_earnings, markPaidStep_earnings, g1, g2] at g8
  rw [List.get?_map, g7] at g8
  rw [Option.map_some'] at g8
  have he' : e' = if mpMatch none c e then
      { e with status := "paid", paidAt := some (toString now2),
               paidVia := some (jsTrim (jsOrS (rq2.paidVia.getD "") "bank")),
               txId := if jsTrim (rq2.txId.getD "") = "" then none
                       else some (jsTrim (rq2.txId.getD "")) }
      else e := (Option.some.inj g8).symm
  refine ⟨?_, ?_, ?_, ?_⟩
  · intro hst
    rw [he', if_neg]
    rw [mpMatch_none]
    simp [hst]
  · intro hrc
    rw [he', if_neg]
    rw [mpMatch_none]
    simp [hrc]
  · intro hrc hst
    rw [he', if_pos (by rw [mpMatch_none]; simp [hrc, hst])]
    exact ⟨rfl, rfl, rfl, rfl⟩
  · have hsum : (markPaidStep rq2.earningId rq2.refCode (toString now2)
        (jsTrim (jsOrS (rq2.paidVia.getD "") "bank"))
        (if jsTrim (rq2.txId.getD "") = "" then none
         else some (jsTrim (rq2.txId.getD ""))) rs2.earnings 0).2 =
        ((rs2.earnings.filter (fun x => x.refCode == c && x.status == "pending")).map
          (fun x => x.amountFiat)).sum := by
      rw [markPaidStep_total rq2.earningId rq2.refCode _ _ _ rs2.earnings 0 isCents_zero g5,
        zero_add, g1, g2]
      congr 1
      apply congrArg
      exact List.filter_congr (fun x _ => mpMatch_none c x)
    have hcompute : (markPaid rs2 rq2 now2).accounts =
        setAccount rs2.accounts c
          { acc2 with totals := { acc2.totals with
              paidFiat := round2 (acc2.totals.paidFiat +
                (markPaidStep rq2.earningId rq2.refCode (toString now2)
                  (jsTrim (jsOrS (rq2.paidVia.getD "") "bank"))
                  (if jsTrim (rq2.txId.getD "") = "" then none
                   else some (jsTrim (rq2.txId.getD ""))) rs2.earnings 0).2) } } := by
      unfold markPaid
      simp only [g1, g2]
      rw [if_neg g3]
      simp only [g4]
    rw [hcompute, hsum]
    simp only [lookupAccount_set]
    rw [round2_add_self g6 (isCents_listSum _ ?_)]
    · simp
    · intro y hy
      obtain ⟨x, hxmem, rfl⟩ := List.mem_map.mp hy
      exact g5 x (List.mem_of_mem_filter hxmem)

/-- Re-marking an earning that is no longer pending changes nothing: the
earnings ledger and every account are left exactly as they were. -/
theorem markPaid_noop_spec (rs3 : ReferralState) (rq3 : MarkPaidReq) (now3 : ℕ)
    (eid : String)
    (k1 : rq3.earningId = some eid)
    (k2 : ∀ x ∈ rs3.earnings, x.id = eid → x.status ≠ "pending")
    (k3 : ∀ kv ∈ rs3.accounts, IsCents kv.2.totals.paidFiat) :
    markPaid rs3 rq3 now3 = rs3 := by
  have hfix : ∀ x ∈ rs3.earnings, mpMatch (some eid) rq3.refCode x = false := by
    intro x hx
    unfold mpMatch
    simp only
    by_cases hid : x.id = eid
    · have hnp := k2 x hx hid
      have hb : (x.status == "pending") = false := by
        rw [beq_eq_false_iff_ne]
        exact hnp
      rw [hb, Bool.and_false]
    · have hb : (x.id == eid) = false := by
        rw [beq_eq_false_iff_ne]
        exact hid
      rw [hb, Bool.false_and]
  have hearn : ∀ (pa pv : String) (tx : Option String),
      (markPaidStep (some eid) rq3.refCode pa pv tx rs3.earnings 0).1 = rs3.earnings := by
    intro pa pv tx
    rw [markPaidStep_earnings]
    have := List.map_congr_left (l := rs3.earnings)
      (f := fun e => if mpMatch (some eid) rq3.refCode e then
        { e with status := "paid", paidAt := some pa, paidVia := some pv, txId := tx }
        else e) (g := fun e => e)
      (fun x hx => by simp [hfix x hx])
    rw [this, List.map_id' rs3.earnings]
  have htot : ∀ (pa pv : String) (tx : Option String),
      (markPaidStep (some eid) rq3.refCode pa pv tx rs3.earnings 0).2 = 0 :=
    fun pa pv tx => markPaidStep_total_nomatch _ _ _ _ _ rs3.earnings 0 hfix
  unfold markPaid
  simp only [k1, hearn, htot]
  cases hf : rs3.earnings.find? (fun x => x.id == eid) with
  | none => rfl
  | some e0 =>
    simp only
    by_cases hrc : e0.refCode = ""
    · rw [if_pos hrc]
    · rw [if_neg hrc]
      simp only
      cases hacc : lookupAccount rs3.accounts e0.refCode with
      | none => rfl
      | some acc =>
        simp only
        have hic : IsCents acc.totals.paidFiat := by
          obtain ⟨kv, hkv, hkva⟩ := lookupAccount_mem hacc
          rw [← hkva]
          exact k3 kv hkv
        rw [add_zero, round2_eq_self hic]
        rw [setAccount_eq_self rs3.accounts e0.refCode acc hacc]

/-- Claim C8: for a tenant with referral percent `p`, a payment-provider
event reporting paid amount `A` appends exactly one pending earning row of
`round2 (A * p)` for the tenant's code and raises that account's
`earnedFiat` by the same amount; mark-paid changes only pending earnings,
setting them to paid and raising `paidFiat` by exactly the sum of the
transitioned amounts; and re-marking an already-paid earning changes
nothing. -/
theorem c8_referral_commission
    (tenants : List Tenant) (rs : ReferralState) (ev : StripeEvent) (now : ℕ)
    (obj : StripeObject) (tid : String) (t : Tenant) (ref : Referral) (p A : ℚ)
    (rs2 : ReferralState) (rq2 : MarkPaidReq) (now2 : ℕ) (acc2 : Account) (c : String)
    (i : ℕ) (e eMk : Earning)
    (rs3 : ReferralState) (rq3 : MarkPaidReq) (now3 : ℕ) (eid : String)
    (h1 : ev.object = some obj)
    (h2 : handledEvents.contains ev.type = true)
    (h3 : obj.metadataTenantId = some tid)
    (h4 : tid ≠ "")
    (h5 : tenants.find? (fun u => u.id == tid) = some t)
    (h6 : t.referral = some ref)
    (h7 : ref.code ≠ "")
    (h8 : ref.percent = some p)
    (h9 : A = round2 (jsOrQ (obj.amountTotal.getD 0) (jsOrQ (obj.amountPaid.getD 0) 0) / 100))
    (h10 : 0 < A)
    (h11 : IsCents (((lookupAccount rs.accounts ref.code).map
        (fun a => a.totals.earnedFiat)).getD 0))
    (g1 : rq2.earningId = none) (g2 : rq2.refCode = c) (g3 : c ≠ "")
    (g4 : lookupAccount rs2.accounts c = some acc2)
    (g5 : ∀ x ∈ rs2.earnings, IsCents x.amountFiat)
    (g6 : IsCents acc2.totals.paidFiat)
    (g7 : rs2.earnings.get? i = some e)
    (g8 : (markPaid rs2 rq2 now2).earnings.get? i = some eMk)
    (k1 : rq3.earningId = some eid)
    (k2 : ∀ x ∈ rs3.earnings, x.id = eid → x.status ≠ "pending")
    (k3 : ∀ kv ∈ rs3.accounts, IsCents kv.2.totals.paidFiat) :
    ((stripeWebhook tenants rs ev now).earnings.map
        (fun x => (x.refCode, x.amountFiat, x.status)) =
      rs.earnings.map (fun x => (x.refCode, x.amountFiat, x.status)) ++
        [(ref.code, round2 (A * p), "pending")] ∧
     (lookupAccount (stripeWebhook tenants rs ev now).accounts ref.code).map
        (fun a => a.totals.earnedFiat) =
      some ((((lookupAccount rs.accounts ref.code).map
        (fun a => a.totals.earnedFiat)).getD 0) + round2 (A * p))) ∧
    ((e.status ≠ "pending" → eMk = e) ∧
     (e.refCode ≠ c → eMk = e) ∧
     (e.refCode = c → e.status = "pending" →
       eMk.status = "paid" ∧ eMk.amountFiat = e.amountFiat ∧ eMk.id = e.id ∧
       eMk.refCode = e.refCode) ∧
     (lookupAccount (markPaid rs2 rq2 now2).accounts c).map
        (fun a => a.totals.paidFiat) =
      some (acc2.totals.paidFiat +
        ((rs2.earnings.filter (fun x => x.refCode == c && x.status == "pending")).map
          (fun x => x.amountFiat)).sum)) ∧
    markPaid rs3 rq3 now3 = rs3 :=
  ⟨stripeWebhook_spec tenants rs ev now obj tid t ref p A
      h1 h2 h3 h4 h5 h6 h7 h8 h9 h10 h11,
   markPaid_batch_spec rs2 rq2 now2 acc2 c i e eMk g1 g2 g3 g4 g5 g6 g7 g8,
   markPaid_noop_spec rs3 rq3 now3 eid k1 k2 k3⟩

/-! Witness fixtures for C8 -/

def wRef : Referral := { code := "ref1", percent := some (1 / 10) }

def wTenantRef : Tenant :=
  { id := "demo", domain := "demo.example.com", active := true, referral := some wRef }

def wObj : StripeObject :=
  { id := "cs_1", metadataTenantId := some "demo", amountTotal := some 12345,
    amountPaid := none, currency := some "eur" }

def wEv : StripeEvent := { type := "checkout.session.completed", object := some wObj }

def wRs0 : ReferralState := { earnings := [], accounts := [] }

def wE1 : Earning :=
  { id := "re_9", tenantId := "demo", refCode := "ref1", amountFiat := 247 / 20,
    currency := "EUR", source := "stripe_checkout", externalId := "cs_1",
    status := "pending", createdAt := "9", paidAt := none, paidVia := none, txId := none }

def wE1mk : Earning :=
  { wE1 with status := "paid", paidAt := some "11", paidVia := some "bank", txId := none }

def wAccR : Account :=
  { code := "ref1", percent := 1 / 10, tenants := ["demo"],
    totals := { earnedFiat := 247 / 20, paidFiat := 0 } }

def wAccRpaid : Account :=
  { wAccR with totals := { earnedFiat := 247 / 20, paidFiat := 247 / 20 } }

def wRs2 : ReferralState := { earnings := [wE1], accounts := [("ref1", wAccR)] }

def wRs3 : ReferralState := { earnings := [wE1mk], accounts := [("ref1", wAccRpaid)] }

def wMp2 : MarkPaidReq :=
  { earningId := none, refCode := "ref1", paidVia := none, txId := none }

def wMp3 : MarkPaidReq :=
  { earningId := some "re_9", refCode := "", paidVia := none, txId := none }

/-- Witness for C8: a 123.45 payment at 10% accrues a pending 12.35 earning;
the batch mark-paid flips it to paid and moves 12.35 into `paidFiat`;
re-marking the paid earning is a no-op. -/
theorem c8_referral_commission_witness :
    ((stripeWebhook [wTenantRef] wRs0 wEv 9).earnings.map
        (fun x => (x.refCode, x.amountFiat, x.status)) =
      wRs0.earnings.map (fun x => (x.refCode, x.amountFiat, x.status)) ++
        [(wRef.code, round2 ((2469 / 20) * (1 / 10)), "pending")]) ∧
    ((lookupAccount (stripeWebhook [wTenantRef] wRs0 wEv 9).accounts wRef.code).map
        (fun a => a.totals.earnedFiat) =
      some ((((lookupAccount wRs0.accounts wRef.code).map
        (fun a => a.totals.earnedFiat)).getD 0) + round2 ((2469 / 20) * (1 / 10)))) ∧
    (wE1mk.status = "paid" ∧ wE1mk.amountFiat = wE1.amountFiat ∧ wE1mk.id = wE1.id ∧
      wE1mk.refCode = wE1.refCode) ∧
    ((lookupAccount (markPaid wRs2 wMp2 11).accounts "ref1").map
        (fun a => a.totals.paidFiat) =
      some (wAccR.totals.paidFiat +
        ((wRs2.earnings.filter (fun x => x.refCode == "ref1" && x.status == "pending")).map
          (fun x => x.amountFiat)).sum)) ∧
    markPaid wRs3 wMp3 13 = wRs3 := by
  have T := c8_referral_commission [wTenantRef] wRs0 wEv 9 wObj "demo" wTenantRef wRef
    (1 / 10) (2469 / 20) wRs2 wMp2 11 wAccR "ref1" 0 wE1 wE1mk wRs3 wMp3 13 "re_9"
    (by rfl) (by decide) (by rfl) (by decide) (by rfl) (by rfl) (by decide) (by rfl)
    (by decide) (by decide) (by decide)
    (by rfl) (by rfl) (by decide) (by rfl) (by decide) (by decide) (by rfl) (by rfl)
    (by rfl) (by decide) (by decide)
  exact ⟨T.1.1, T.1.2, T.2.1.2.2.1 (by rfl) (by rfl), T.2.1.2.2.2, T.2.2⟩

/-! ## Claim C2: stock observation points -/

/-- The stock number a line targets: product-level stock for key `(pid, none)`
and the first matching variant's stock for `(pid, some vid)`, both read with
the code's `|| 0` default. -/
def stockAt (catalog : List Product) : String × Option String → Option ℚ
  | (pid, none) => (findProduct catalog pid).map (fun p => p.stock.getD 0)
  | (pid, some vid) =>
    match findProduct catalog pid with
    | none => none
    | some p =>
      ((p.variants.getD []).find? (fun v => v.id == vid)).map (fun v => v.stock.getD 0)

/-- The branch the deduction loop takes for a line: the variant key when the
line carries a variant id and the matching product has a variants array
(`ci.variantId && Array.isArray(prod.variants)`), else the product key. -/
def effKey (catalog : List Product) (ci : CartLine) : String × Option String :=
  match ci.variantId, (findProduct catalog ci.id).bind (fun p => p.variants) with
  | some vid, some _ => (ci.id, some vid)
  | _, _ => (ci.id, none)

/-- A stock-log row for the given target and order. -/
def rowMatch (k : String × Option String) (oid : String) (r : StockLogEntry) : Bool :=
  r.productId == k.1 && r.variantId == k.2 && r.orderId == oid

theorem deductVariant_find_ne (vid w : String) (q : ℤ) (hne : w ≠ vid) :
    ∀ vs : List Variant,
      (deductVariant vid q vs).find? (fun v => v.id == w) =
        vs.find? (fun v => v.id == w)
  | [] => rfl
  | v :: vs => by
    unfold deductVariant
    by_cases hv : (v.id == vid) = true
    · rw [if_pos hv]
      have hw : (v.id == w) = false := by
        rw [beq_eq_false_iff_ne]
        intro hvw
        exact hne (hvw.symm.trans (eq_of_beq hv))
      rw [List.find?_cons, List.find?_cons]
      simp only [hw]
    · rw [if_neg hv]
      rw [List.find?_cons, List.find?_cons]
      cases hw : (v.id == w) with
      | true => rfl
      | false => exact deductVariant_find_ne vid w q hne vs

theorem deductVariant_find_eq (vid : String) (q : ℤ) :
    ∀ (vs : List Variant) (v : Variant),
      vs.find? (fun x => x.id == vid) = some v →
      (deductVariant vid q vs).find? (fun x => x.id == vid) =
        some { v with stock := some (max 0 (v.stock.getD 0 - (q : ℚ))) }
  | [], v, h => by cases h
  | x :: vs, v, h => by
    unfold deductVariant
    rw [List.find?_cons] at h
    by_cases hx : (x.id == vid) = true
    · simp only [hx] at h
      have hxv : x = v := by simpa using h
      rw [if_pos hx, List.find?_cons]
      have hid : ({ x with stock := some (max 0 (x.stock.getD 0 - (q : ℚ))) }.id == vid)
          = true := hx
      simp only [hid]
      rw [hxv]
    · have hx2 : (x.id == vid) = false := by rwa [Bool.not_eq_true] at hx
      simp only [hx2] at h
      rw [if_neg hx, List.find?_cons]
      simp only [hx2]
      exact deductVariant_find_eq vid q vs v h

theorem findProduct_cons_pos {p : Product} {ps : List Product} {x : String}
    (h : (p.id == x) = true) : findProduct (p :: ps) x = some p := by
  unfold findProduct
  rw [List.find?_cons]
  simp only [h]

theorem findProduct_cons_neg {p : Product} {ps : List Product} {x : String}
    (h : (p.id == x) = false) : findProduct (p :: ps) x = findProduct ps x := by
  unfold findProduct
  rw [List.find?_cons]
  simp only [h]

theorem stockAt_cons_pos_none {p : Product} {ps : List Product} {pid : String}
    (h : (p.id == pid) = true) :
    stockAt (p :: ps) (pid, none) = some (p.stock.getD 0) := by
  unfold stockAt
  simp only
  rw [findProduct_cons_pos h]
  rfl

theorem stockAt_cons_neg {p : Product} {ps : List Product} {pid : String}
    (h : (p.id == pid) = false) (ov : Option String) :
    stockAt (p :: ps) (pid, ov) = stockAt ps (pid, ov) := by
  cases ov with
  | none =>
    unfold stockAt
    simp only
    rw [findProduct_cons_neg h]
  | some w =>
    unfold stockAt
    simp only
    rw [findProduct_cons_neg h]

theorem stockAt_cons_pos_some {p : Product} {ps : List Product} {pid : String}
    (h : (p.id == pid) = true) (w : String) :
    stockAt (p :: ps) (pid, some w) =
      ((p.variants.getD []).find? (fun v => v.id == w)).map (fun v => v.stock.getD 0) := by
  unfold stockAt
  simp only
  rw [findProduct_cons_pos h]

theorem effKey_congr {c1 c2 : List Product} (ci : CartLine)
    (h : ((findProduct c1 ci.id).bind (fun p => p.variants)).isSome =
      ((findProduct c2 ci.id).bind (fun p => p.variants)).isSome) :
    effKey c1 ci = effKey c2 ci := by
  unfold effKey
  cases h1 : (findProduct c1 ci.id).bind (fun p => p.variants) with
  | none =>
    rw [h1] at h
    cases h2 : (findProduct c2 ci.id).bind (fun p => p.variants) with
    | none => cases ci.variantId <;> rfl
    | some b => rw [h2] at h; simp at h
  | some a =>
    rw [h1] at h
    cases h2 : (findProduct c2 ci.id).bind (fun p => p.variants) with
    | none => rw [h2] at h; simp at h
    | some b => cases ci.variantId <;> rfl

theorem effKey_cons_congr {p q : Product} {ps : List Product} (ci : CartLine)
    (hid : q.id = p.id) (hvar : q.variants.isSome = p.variants.isSome) :
    effKey (q :: ps) ci = effKey (p :: ps) ci := by
  apply effKey_congr
  by_cases hq : (p.id == ci.id) = true
  · rw [findProduct_cons_pos hq,
      findProduct_cons_pos (show (q.id == ci.id) = true by rw [hid]; exact hq)]
    simp [hvar]
  · have hq2 : (p.id == ci.id) = false := by rwa [Bool.not_eq_true] at hq
    rw [findProduct_cons_neg hq2,
      findProduct_cons_neg (show (q.id == ci.id) = false by rw [hid]; exact hq2)]

theorem effKey_cons_tail {p : Product} {xs ys : List Product} (ci : CartLine)
    (hq : (p.id == ci.id) = true) : effKey (p :: xs) ci = effKey (p :: ys) ci := by
  apply effKey_congr
  rw [findProduct_cons_pos hq, findProduct_cons_pos hq]

theorem effKey_cons_skip {p : Product} {xs : List Product} (ci : CartLine)
    (hq : (p.id == ci.id) = false) : effKey (p :: xs) ci = effKey xs ci := by
  apply effKey_congr
  rw [findProduct_cons_neg hq]

/-- The deduction step never changes which products exist, their ids, or
whether they carry a variants array; hence every line's effective key is
stable across steps. -/
theorem deductLine_effKey (now : ℕ) (oid cAt : String) (cj ci : CartLine) :
    ∀ ps : List Product,
      effKey (deductLine now oid cAt cj ps).1 ci = effKey ps ci
  | [] => rfl
  | p :: ps => by
    unfold deductLine
    by_cases hp : (p.id == cj.id) = true
    · rw [if_pos hp]
      cases hv : cj.variantId with
      | none =>
        cases hpv : p.variants with
        | none =>
          simp only
          by_cases hs : 0 < p.stock.getD 0
          · rw [if_pos hs]
            exact effKey_cons_congr ci rfl (by rw [hpv])
          · rw [if_neg hs]
        | some vs =>
          simp only
          by_cases hs : 0 < p.stock.getD 0
          · rw [if_pos hs]
            exact effKey_cons_congr ci rfl (by rw [hpv])
          · rw [if_neg hs]
      | some vid =>
        cases hpv : p.variants with
        | none =>
          simp only
          by_cases hs : 0 < p.stock.getD 0
          · rw [if_pos hs]
            exact effKey_cons_congr ci rfl (by rw [hpv])
          · rw [if_neg hs]
        | some vs =>
          simp only
          by_cases hf : ((vs.find? (fun v => v.id == vid)).isSome = true)
          · rw [if_pos hf]
            exact effKey_cons_congr ci rfl (by rw [hpv]; rfl)
          · rw [if_neg hf]
    · rw [if_neg hp]
      simp only
      by_cases hq : (p.id == ci.id) = true
      · exact effKey_cons_tail ci hq
      · have hq2 : (p.id == ci.id) = false := by rwa [Bool.not_eq_true] at hq
        rw [effKey_cons_skip ci hq2, effKey_cons_skip ci hq2,
          deductLine_effKey now oid cAt cj ci ps]

theorem stockAt_cons_head_only {p : Product} {xs ys : List Product}
    {k : String × Option String} (hq : (p.id == k.1) = true) :
    stockAt (p :: xs) k = stockAt (p :: ys) k := by
  obtain ⟨k1, k2⟩ := k
  cases k2 with
  | none => rw [stockAt_cons_pos_none hq, stockAt_cons_pos_none hq]
  | some w => rw [stockAt_cons_pos_some hq w, stockAt_cons_pos_some hq w]

theorem frame_head_stock {p q : Product} {ps : List Product} {k : String × Option String}
    (hid : q.id = p.id) (hvar : q.variants = p.variants) (hk : k ≠ (p.id, none)) :
    stockAt (q :: ps) k = stockAt (p :: ps) k := by
  obtain ⟨k1, k2⟩ := k
  by_cases hq : (p.id == k1) = true
  · have hq' : (q.id == k1) = true := by rw [hid]; exact hq
    cases k2 with
    | none =>
      exact absurd (by rw [eq_of_beq hq]) hk
    | some w =>
      rw [stockAt_cons_pos_some hq' w, stockAt_cons_pos_some hq w, hvar]
  · have hq2 : (p.id == k1) = false := by rwa [Bool.not_eq_true] at hq
    have hq2' : (q.id == k1) = false := by rw [hid]; exact hq2
    rw [stockAt_cons_neg hq2' k2, stockAt_cons_neg hq2 k2]

theorem frame_head_var {p q : Product} {ps : List Product} {k : String × Option String}
    {vid : String} {qn : ℤ} {vs : List Variant}
    (hid : q.id = p.id) (hstock : q.stock = p.stock)
    (hqv : q.variants = some (deductVariant vid qn vs)) (hpv : p.variants = some vs)
    (hk : k ≠ (p.id, some vid)) :
    stockAt (q :: ps) k = stockAt (p :: ps) k := by
  obtain ⟨k1, k2⟩ := k
  by_cases hq : (p.id == k1) = true
  · have hq' : (q.id == k1) = true := by rw [hid]; exact hq
    cases k2 with
    | none =>
      rw [stockAt_cons_pos_none hq', stockAt_cons_pos_none hq, hstock]
    | some w =>
      have hw : w ≠ vid := by
        intro hwv
        exact hk (by rw [eq_of_beq hq, hwv])
      rw [stockAt_cons_pos_some hq' w, stockAt_cons_pos_some hq w, hqv, hpv]
      simp only [Option.getD_some]
      rw [deductVariant_find_ne vid w qn hw vs]
  · have hq2 : (p.id == k1) = false := by rwa [Bool.not_eq_true] at hq
    have hq2' : (q.id == k1) = false := by rw [hid]; exact hq2
    rw [stockAt_cons_neg hq2' k2, stockAt_cons_neg hq2 k2]

theorem effKey_head_var {p : Product} {ps : List Product} {cj : CartLine} {vid : String}
    {vs : List Variant} (hp : (p.id == cj.id) = true) (hv : cj.variantId = some vid)
    (hpv : p.variants = some vs) : effKey (p :: ps) cj = (cj.id, some vid) := by
  unfold effKey
  rw [hv, findProduct_cons_pos hp]
  simp [hpv]

theorem effKey_head_novar {p : Product} {ps : List Product} {cj : CartLine}
    (hp : (p.id == cj.id) = true)
    (h : cj.variantId = none ∨ p.variants = none) : effKey (p :: ps) cj = (cj.id, none) := by
  unfold effKey
  cases h with
  | inl hv =>
    rw [hv]
  | inr hpv =>
    rw [findProduct_cons_pos hp]
    cases hv : cj.variantId with
    | none => simp [hpv]
    | some vid => simp [hpv]

/-- Frame: a deduction step for a line with a different effective key leaves
the observed stock unchanged. -/
theorem deductLine_stockAt_ne (now : ℕ) (oid cAt : String) (cj : CartLine)
    (k : String × Option String) :
    ∀ ps : List Product, effKey ps cj ≠ k →
      stockAt (deductLine now oid cAt cj ps).1 k = stockAt ps k
  | [], _ => rfl
  | p :: ps, hk => by
    unfold deductLine
    by_cases hp : (p.id == cj.id) = true
    · rw [if_pos hp]
      cases hv : cj.variantId with
      | none =>
        cases hpv : p.variants with
        | none =>
          simp only
          by_cases hs : 0 < p.stock.getD 0
          · rw [if_pos hs]
            refine frame_head_stock rfl (by rw [hpv]) ?_
            intro hkk
            exact hk (by rw [effKey_head_novar hp (Or.inl hv), hkk, eq_of_beq hp])
          · rw [if_neg hs]
        | some vs =>
          simp only
          by_cases hs : 0 < p.stock.getD 0
          · rw [if_pos hs]
            refine frame_head_stock rfl (by rw [hpv]) ?_
            intro hkk
            exact hk (by rw [effKey_head_novar hp (Or.inl hv), hkk, eq_of_beq hp])
          · rw [if_neg hs]
      | some vid =>
        cases hpv : p.variants with
        | none =>
          simp only
          by_cases hs : 0 < p.stock.getD 0
          · rw [if_pos hs]
            refine frame_head_stock rfl (by rw [hpv]) ?_
            intro hkk
            exact hk (by rw [effKey_head_novar hp (Or.inr hpv), hkk, eq_of_beq hp])
          · rw [if_neg hs]
        | some vs =>
          simp only
          by_cases hf : ((vs.find? (fun v => v.id == vid)).isSome = true)
          · rw [if_pos hf]
            refine frame_head_var rfl rfl rfl hpv ?_
            intro hkk
            exact hk (by rw [effKey_head_var hp hv hpv, hkk, eq_of_beq hp])
          · rw [if_neg hf]
    · rw [if_neg hp]
      simp only
      by_cases hq : (p.id == k.1) = true
      · exact stockAt_cons_head_only hq
      · have hq2 : (p.id == k.1) = false := by rwa [Bool.not_eq_true] at hq
        obtain ⟨k1, k2⟩ := k
        rw [stockAt_cons_neg hq2 k2, stockAt_cons_neg hq2 k2]
        have hp2 : (p.id == cj.id) = false := by rwa [Bool.not_eq_true] at hp
        refine deductLine_stockAt_ne now oid cAt cj (k1, k2) ps ?_
        intro hkey
        exact hk ((effKey_cons_skip cj hp2).trans hkey)

/-- Every row a deduction step pushes is keyed by that line's effective key
and the current order id. -/
theorem deductLine_rows (now : ℕ) (oid cAt : String) (cj : CartLine) :
    ∀ ps : List Product, ∀ r ∈ (deductLine now oid cAt cj ps).2,
      (r.productId, r.variantId) = effKey ps cj ∧ r.orderId = oid
  | [], r, hr => by cases hr
  | p :: ps, r, hr => by
    unfold deductLine at hr
    by_cases hp : (p.id == cj.id) = true
    · rw [if_pos hp] at hr
      cases hv : cj.variantId with
      | none =>
        rw [hv] at hr
        cases hpv : p.variants with
        | none =>
          rw [hpv] at hr
          simp only at hr
          by_cases hs : 0 < p.stock.getD 0
          · rw [if_pos hs] at hr
            simp only [List.mem_singleton] at hr
            subst hr
            rw [effKey_head_novar hp (Or.inl hv)]
            exact ⟨rfl, rfl⟩
          · rw [if_neg hs] at hr
            cases hr
        | some vs =>
          rw [hpv] at hr
          simp only at hr
          by_cases hs : 0 < p.stock.getD 0
          · rw [if_pos hs] at hr
            simp only [List.mem_singleton] at hr
            subst hr
            rw [effKey_head_novar hp (Or.inl hv)]
            exact ⟨rfl, rfl⟩
          · rw [if_neg hs] at hr
            cases hr
      | some vid =>
        rw [hv] at hr
        cases hpv : p.variants with
        | none =>
          rw [hpv] at hr
          simp only at hr
          by_cases hs : 0 < p.stock.getD 0
          · rw [if_pos hs] at hr
            simp only [List.mem_singleton] at hr
            subst hr
            rw [effKey_head_novar hp (Or.inr hpv)]
            exact ⟨rfl, rfl⟩
          · rw [if_neg hs] at hr
            cases hr
        | some vs =>
          rw [hpv] at hr
          simp only at hr
          by_cases hf : ((vs.find? (fun v => v.id == vid)).isSome = true)
          · rw [if_pos hf] at hr
            simp only [List.mem_singleton] at hr
            subst hr
            rw [effKey_head_var hp hv hpv]
            exact ⟨rfl, rfl⟩
          · rw [if_neg hf] at hr
            cases hr
    · rw [if_neg hp] at hr
      simp only at hr
      have hp2 : (p.id == cj.id) = false := by rwa [Bool.not_eq_true] at hp
      rw [effKey_cons_skip cj hp2]
      exact deductLine_rows now oid cAt cj ps r hr

/-- Head-product stock lookup stated over explicit field equations, so it
applies to record-literal heads produced by match reduction. -/
theorem stockAt_cons_head (q : Product) (ps : List Product) (pid : String) (w : ℚ)
    (hq : (q.id == pid) = true) (hw : q.stock = some w) :
    stockAt (q :: ps) (pid, none) = some w := by
  rw [stockAt_cons_pos_none hq, hw]
  rfl

/-- Action of a deduction step on its own variant-keyed line: the variant
stock is clamped-decremented and exactly the one variant row is pushed. -/
theorem deductLine_action_var (now : ℕ) (oid cAt : String) (ci : CartLine) (vid : String)
    (s : ℚ) :
    ∀ ps : List Product, effKey ps ci = (ci.id, some vid) →
      stockAt ps (ci.id, some vid) = some s →
      stockAt (deductLine now oid cAt ci ps).1 (ci.id, some vid) =
        some (max 0 (s - (ci.qty : ℚ))) ∧
      (deductLine now oid cAt ci ps).2 =
        [{ id := toString now ++ "_" ++ ci.id, productId := ci.id, productName := ci.name,
           variantId := some vid, variantLabel := ci.variantLabel, delta := -ci.qty,
           reason := "order", orderId := oid, createdAt := cAt }]
  | [], hkey, hstock => by
    cases hstock
  | p :: ps, hkey, hstock => by
    unfold deductLine
    by_cases hp : (p.id == ci.id) = true
    · cases hv : ci.variantId with
      | none =>
        rw [effKey_head_novar hp (Or.inl hv)] at hkey
        cases hkey
      | some vid2 =>
        cases hpv : p.variants with
        | none =>
          rw [effKey_head_novar hp (Or.inr hpv)] at hkey
          cases hkey
        | some vs =>
          have hvid : vid2 = vid := by
            rw [effKey_head_var hp hv hpv] at hkey
            simpa using hkey
          subst hvid
          rw [stockAt_cons_pos_some hp vid2, hpv] at hstock
          simp only [Option.getD_some] at hstock
          cases hfind : vs.find? (fun v => v.id == vid2) with
          | none =>
            rw [hfind] at hstock
            cases hstock
          | some v =>
            rw [hfind] at hstock
            simp only [Option.map_some'] at hstock
            have hs : v.stock.getD 0 = s := by simpa using hstock
            rw [if_pos hp]
            simp only
            rw [if_pos (by rw [hfind]; rfl)]
            refine ⟨?_, rfl⟩
            rw [stockAt_cons_pos_some
              (p := { p with variants := some (deductVariant vid2 ci.qty vs) }) hp vid2]
            simp only [Option.getD_some]
            rw [deductVariant_find_eq vid2 ci.qty vs v hfind]
            simp only [Option.map_some']
            rw [hs]
            rfl
    · have hp2 : (p.id == ci.id) = false := by rwa [Bool.not_eq_true] at hp
      rw [if_neg hp]
      simp only
      rw [effKey_cons_skip ci hp2] at hkey
      rw [stockAt_cons_neg hp2 (some vid)] at hstock
      have IH := deductLine_action_var now oid cAt ci vid s ps hkey hstock
      refine ⟨?_, IH.2⟩
      rw [stockAt_cons_neg hp2 (some vid)]
      exact IH.1

/-- Action of a deduction step on its own product-keyed line: with positive
stock the product stock is clamped-decremented and one product row pushed;
with stock at or below zero nothing happens at all. -/
theorem deductLine_action_prod (now : ℕ) (oid cAt : String) (ci : CartLine) (s : ℚ) :
    ∀ ps : List Product, effKey ps ci = (ci.id, none) →
      stockAt ps (ci.id, none) = some s →
      (0 < s →
        stockAt (deductLine now oid cAt ci ps).1 (ci.id, none) =
          some (max 0 (s - (ci.qty : ℚ))) ∧
        (deductLine now oid cAt ci ps).2 =
          [{ id := toString now ++ "_" ++ ci.id, productId := ci.id,
             productName := ci.name, variantId := none, variantLabel := none,
             delta := -ci.qty, reason := "order", orderId := oid, createdAt := cAt }]) ∧
      (¬ 0 < s →
        (deductLine now oid cAt ci ps).1 = ps ∧ (deductLine now oid cAt ci ps).2 = [])
  | [], hkey, hstock => by
    cases hstock
  | p :: ps, hkey, hstock => by
    unfold deductLine
    by_cases hp : (p.id == ci.id) = true
    · rw [stockAt_cons_pos_none hp] at hstock
      have hs : p.stock.getD 0 = s := by simpa using hstock
      cases hv : ci.variantId with
      | none =>
        rw [if_pos hp]
        cases hpv : p.variants with
        | none =>
          simp only
          constructor
          · intro hpos
            rw [if_pos (by rw [hs]; exact hpos)]
            simp only
            refine ⟨?_, trivial⟩
            refine stockAt_cons_head _ ps ci.id _ ?_ ?_
            · exact hp
            · rw [← hs]
          · intro hneg
            rw [if_neg (by rw [hs]; exact hneg)]
            exact ⟨rfl, rfl⟩
        | some vs =>
          simp only
          constructor
          · intro hpos
            rw [if_pos (by rw [hs]; exact hpos)]
            simp only
            refine ⟨?_, trivial⟩
            refine stockAt_cons_head _ ps ci.id _ ?_ ?_
            · exact hp
            · rw [← hs]
          · intro hneg
            rw [if_neg (by rw [hs]; exact hneg)]
            exact ⟨rfl, rfl⟩
      | some vid =>
        cases hpv : p.variants with
        | none =>
          rw [if_pos hp]
          simp only
          constructor
          · intro hpos
            rw [if_pos (by rw [hs]; exact hpos)]
            simp only
            refine ⟨?_, trivial⟩
            refine stockAt_cons_head _ ps ci.id _ ?_ ?_
            · exact hp
            · rw [← hs]
          · intro hneg
            rw [if_neg (by rw [hs]; exact hneg)]
            exact ⟨rfl, rfl⟩
        | some vs =>
          rw [effKey_head_var hp hv hpv] at hkey
          cases hkey
    · have hp2 : (p.id == ci.id) = false := by rwa [Bool.not_eq_true] at hp
      rw [if_neg hp]
      simp only
      rw [effKey_cons_skip ci hp2] at hkey
      rw [stockAt_cons_neg hp2 none] at hstock
      have IH := deductLine_action_prod now oid cAt ci s ps hkey hstock
      constructor
      · intro hpos
        refine ⟨?_, (IH.1 hpos).2⟩
        rw [stockAt_cons_neg hp2 none]
        exact (IH.1 hpos).1
      · intro hneg
        refine ⟨?_, (IH.2 hneg).2⟩
        rw [(IH.2 hneg).1]

/-- A row whose key-and-order triple differs from `k`/`oid` fails `rowMatch`. -/
theorem rowMatch_eq_false {k : String × Option String} {oid : String} {r : StockLogEntry}
    (h : (r.productId, r.variantId) ≠ k) : rowMatch k oid r = false := by
  unfold rowMatch
  obtain ⟨k1, k2⟩ := k
  by_cases h1 : r.productId = k1
  · have h2 : r.variantId ≠ k2 := fun h2 => h (by rw [h1, h2])
    rw [beq_eq_false_iff_ne.mpr h2]
    simp
  · rw [beq_eq_false_iff_ne.mpr h1]
    simp

/-- Filtering by a predicate false on every element yields the empty list. -/
theorem filter_eq_nil_of_forall {α} (p : α → Bool) :
    ∀ l : List α, (∀ a ∈ l, p a = false) → l.filter p = []
  | [], _ => rfl
  | x :: xs, h => by
    rw [List.filter_cons,
      if_neg (by rw [h x (List.mem_cons_self x xs)]; exact Bool.false_ne_true)]
    exact filter_eq_nil_of_forall p xs (fun a ha => h a (List.mem_cons_of_mem x ha))

/-- A deduction step for a line with a different effective key contributes no
row matching that key. -/
theorem deductLine_filter_ne (now : ℕ) (oid cAt : String) (cj : CartLine)
    (k : String × Option String) (ps : List Product) (h : effKey ps cj ≠ k) :
    (deductLine now oid cAt cj ps).2.filter (rowMatch k oid) = [] := by
  apply filter_eq_nil_of_forall
  intro r hr
  have hrow := deductLine_rows now oid cAt cj ps r hr
  exact rowMatch_eq_false (by rw [hrow.1]; exact h)

/-- A deduction step never changes any line's effective key, elementwise over
a whole cart. -/
theorem map_effKey_deductLine (now : ℕ) (oid cAt : String) (cj : CartLine)
    (ps : List Product) :
    ∀ items : List CartLine,
      items.map (effKey (deductLine now oid cAt cj ps).1) = items.map (effKey ps)
  | [] => rfl
  | x :: xs => by
    rw [List.map_cons, List.map_cons, deductLine_effKey,
      map_effKey_deductLine now oid cAt cj ps xs]

/-- Frame property of the whole deduction fold: a key that is no line's
effective key keeps its stock and gains no matching log row. -/
theorem deductAll_ne (now : ℕ) (oid cAt : String) (k : String × Option String) :
    ∀ (items : List CartLine) (ps : List Product) (log : List StockLogEntry),
      (∀ e ∈ items, effKey ps e ≠ k) →
      stockAt (deductAll now oid cAt items ps log).1 k = stockAt ps k ∧
      (deductAll now oid cAt items ps log).2.filter (rowMatch k oid) =
        log.filter (rowMatch k oid)
  | [], ps, log, _ => ⟨rfl, rfl⟩
  | ci :: rest, ps, log, h => by
    unfold deductAll
    simp only
    have hk := h ci (List.mem_cons_self ci rest)
    have hrest : ∀ e ∈ rest, effKey (deductLine now oid cAt ci ps).1 e ≠ k := by
      intro e he
      rw [deductLine_effKey]
      exact h e (List.mem_cons_of_mem ci he)
    have IH := deductAll_ne now oid cAt k rest (deductLine now oid cAt ci ps).1
      (log ++ (deductLine now oid cAt ci ps).2) hrest
    refine ⟨IH.1.trans (deductLine_stockAt_ne now oid cAt ci k ps hk), ?_⟩
    rw [IH.2, List.filter_append, deductLine_filter_ne now oid cAt ci k ps hk,
      List.append_nil]

/-- Main fold lemma, variant-keyed line: across the whole deduction fold the
line's variant stock is clamped-decremented once and exactly one matching row
is appended, provided the cart's effective keys are pairwise distinct. -/
theorem deductAll_spec_var (now : ℕ) (oid cAt : String) (e : CartLine) (vid : String)
    (s : ℚ) :
    ∀ (items : List CartLine) (ps : List Product) (log : List StockLogEntry),
      e ∈ items →
      (items.map (effKey ps)).Nodup →
      effKey ps e = (e.id, some vid) →
      stockAt ps (e.id, some vid) = some s →
      stockAt (deductAll now oid cAt items ps log).1 (e.id, some vid) =
        some (max 0 (s - (e.qty : ℚ))) ∧
      (deductAll now oid cAt items ps log).2.filter (rowMatch (e.id, some vid) oid) =
        log.filter (rowMatch (e.id, some vid) oid) ++
        [{ id := toString now ++ "_" ++ e.id, productId := e.id, productName := e.name,
           variantId := some vid, variantLabel := e.variantLabel, delta := -e.qty,
           reason := "order", orderId := oid, createdAt := cAt }]
  | [], ps, log, he, _, _, _ => by cases he
  | ci :: rest, ps, log, he, hnd, hkey, hs => by
    unfold deductAll
    simp only
    rw [List.map_cons, List.nodup_cons] at hnd
    obtain ⟨hnotin, hnd2⟩ := hnd
    cases List.mem_cons.mp he with
    | inl heq =>
      subst heq
      have hact := deductLine_action_var now oid cAt e vid s ps hkey hs
      have hrest : ∀ x ∈ rest, effKey (deductLine now oid cAt e ps).1 x ≠ (e.id, some vid) := by
        intro x hx
        rw [deductLine_effKey]
        intro hcontra
        exact hnotin (List.mem_map.mpr ⟨x, hx, hcontra.trans hkey.symm⟩)
      have hfr := deductAll_ne now oid cAt (e.id, some vid) rest
        (deductLine now oid cAt e ps).1
        (log ++ (deductLine now oid cAt e ps).2) hrest
      refine ⟨hfr.1.trans hact.1, ?_⟩
      rw [hfr.2, hact.2, List.filter_append]
      congr 1
      rw [List.filter_cons]
      rw [if_pos (by simp [rowMatch])]
      rfl
    | inr hmem =>
      have hkhead : effKey ps ci ≠ (e.id, some vid) := by
        intro hcontra
        exact hnotin (List.mem_map.mpr ⟨e, hmem, hkey.trans hcontra.symm⟩)
      have IH := deductAll_spec_var now oid cAt e vid s rest
        (deductLine now oid cAt ci ps).1
        (log ++ (deductLine now oid cAt ci ps).2) hmem
        (by rw [map_effKey_deductLine]; exact hnd2)
        (by rw [deductLine_effKey]; exact hkey)
        ((deductLine_stockAt_ne now oid cAt ci (e.id, some vid) ps hkhead).trans hs)
      refine ⟨IH.1, ?_⟩
      rw [IH.2, List.filter_append, deductLine_filter_ne now oid cAt ci _ ps hkhead,
        List.append_nil]

/-- Main fold lemma, product-keyed line: across the whole deduction fold the
product stock is clamped-decremented and exactly one matching row appended
when the prior stock was positive; with stock at or below zero nothing at
that key changes and no row appears. Requires pairwise-distinct effective
keys. -/
theorem deductAll_spec_prod (now : ℕ) (oid cAt : String) (e : CartLine) (s : ℚ) :
    ∀ (items : List CartLine) (ps : List Product) (log : List StockLogEntry),
      e ∈ items →
      (items.map (effKey ps)).Nodup →
      effKey ps e = (e.id, none) →
      stockAt ps (e.id, none) = some s →
      (0 < s →
        stockAt (deductAll now oid cAt items ps log).1 (e.id, none) =
          some (max 0 (s - (e.qty : ℚ))) ∧
        (deductAll now oid cAt items ps log).2.filter (rowMatch (e.id, none) oid) =
          log.filter (rowMatch (e.id, none) oid) ++
          [{ id := toString now ++ "_" ++ e.id, productId := e.id, productName := e.name,
             variantId := none, variantLabel := none, delta := -e.qty,
             reason := "order", orderId := oid, createdAt := cAt }]) ∧
      (¬ 0 < s →
        stockAt (deductAll now oid cAt items ps log).1 (e.id, none) = some s ∧
        (deductAll now oid cAt items ps log).2.filter (rowMatch (e.id, none) oid) =
          log.filter (rowMatch (e.id, none) oid))
  | [], ps, log, he, _, _, _ => by cases he
  | ci :: rest, ps, log, he, hnd, hkey, hs => by
    unfold deductAll
    simp only
    rw [List.map_cons, List.nodup_cons] at hnd
    obtain ⟨hnotin, hnd2⟩ := hnd
    cases List.mem_cons.mp he with
    | inl heq =>
      subst heq
      have hact := deductLine_action_prod now oid cAt e s ps hkey hs
      have hrest : ∀ x ∈ rest, effKey (deductLine now oid cAt e ps).1 x ≠ (e.id, none) := by
        intro x hx
        rw [deductLine_effKey]
        intro hcontra
        exact hnotin (List.mem_map.mpr ⟨x, hx, hcontra.trans hkey.symm⟩)
      have hfr := deductAll_ne now oid cAt (e.id, none) rest
        (deductLine now oid cAt e ps).1
        (log ++ (deductLine now oid cAt e ps).2) hrest
      constructor
      · intro hpos
        refine ⟨hfr.1.trans (hact.1 hpos).1, ?_⟩
        rw [hfr.2, (hact.1 hpos).2, List.filter_append]
        congr 1
        rw [List.filter_cons]
        rw [if_pos (by simp [rowMatch])]
        rfl
      · intro hneg
        refine ⟨?_, ?_⟩
        · rw [hfr.1, (hact.2 hneg).1]
          exact hs
        · rw [hfr.2, (hact.2 hneg).2, List.append_nil]
    | inr hmem =>
      have hkhead : effKey ps ci ≠ (e.id, none) := by
        intro hcontra
        exact hnotin (List.mem_map.mpr ⟨e, hmem, hkey.trans hcontra.symm⟩)
      have IH := deductAll_spec_prod now oid cAt e s rest
        (deductLine now oid cAt ci ps).1
        (log ++ (deductLine now oid cAt ci ps).2) hmem
        (by rw [map_effKey_deductLine]; exact hnd2)
        (by rw [deductLine_effKey]; exact hkey)
        ((deductLine_stockAt_ne now oid cAt ci (e.id, none) ps hkhead).trans hs)
      constructor
      · intro hpos
        refine ⟨(IH.1 hpos).1, ?_⟩
        rw [(IH.1 hpos).2, List.filter_append,
          deductLine_filter_ne now oid cAt ci _ ps hkhead, List.append_nil]
      · intro hneg
        refine ⟨(IH.2 hneg).1, ?_⟩
        rw [(IH.2 hneg).2, List.filter_append,
          deductLine_filter_ne now oid cAt ci _ ps hkhead, List.append_nil]

/-- Enrichment preserves the found product's id. -/
theorem enrichOne_id (found : Product) (ci : ClientItem) :
    (enrichOne found ci).id = found.id := rfl

/-- The product returned by `findProduct` carries the looked-up id. -/
theorem findProduct_id {catalog : List Product} {pid : String} {found : Product}
    (hf : findProduct catalog pid = some found) : found.id = pid := by
  unfold findProduct at hf
  have hbeq := List.find?_some hf
  simp only at hbeq
  exact eq_of_beq hbeq

/-- Effective-key computation when the product lookup succeeds and the line
carries a variant id while the product has a variants array. -/
theorem effKey_var_of_find {catalog : List Product} {E : CartLine} {found : Product}
    {vid : String} {vs : List Variant}
    (hf : findProduct catalog E.id = some found) (hv : E.variantId = some vid)
    (hpv : found.variants = some vs) : effKey catalog E = (E.id, some vid) := by
  unfold effKey
  rw [hv, hf]
  simp [hpv]

/-- Effective-key computation falling back to the product level. -/
theorem effKey_novar_of_find {catalog : List Product} {E : CartLine} {found : Product}
    (hf : findProduct catalog E.id = some found)
    (h : E.variantId = none ∨ found.variants = none) :
    effKey catalog E = (E.id, none) := by
  unfold effKey
  cases h with
  | inl hv => rw [hv]
  | inr hpv =>
    rw [hf]
    cases hv : E.variantId with
    | none => simp [hpv]
    | some w => simp [hpv]

/-- Product-level stock lookup through a successful `findProduct`. -/
theorem stockAt_none_of_find {catalog : List Product} {pid : String} {found : Product}
    (hf : findProduct catalog pid = some found) :
    stockAt catalog (pid, none) = some (found.stock.getD 0) := by
  unfold stockAt
  simp only
  rw [hf]
  rfl

/-- Variant-level stock lookup through a successful `findProduct`. -/
theorem stockAt_some_of_find {catalog : List Product} {pid : String} {found : Product}
    (vid : String) (hf : findProduct catalog pid = some found) :
    stockAt catalog (pid, some vid) =
      ((found.variants.getD []).find? (fun v => v.id == vid)).map
        (fun v => v.stock.getD 0) := by
  unfold stockAt
  simp only
  rw [hf]

/-- If enrichment keeps a variant id, the server found that variant on the
product's variants array. -/
theorem enrichOne_variant_found {found : Product} {ci : ClientItem} {vid : String}
    {vs : List Variant} (hpv : found.variants = some vs)
    (h : (enrichOne found ci).variantId = some vid) :
    (vs.find? (fun x => x.id == vid)).isSome = true := by
  unfold enrichOne at h
  simp only at h
  by_cases h0 : jsTrim (ci.variantId.getD "") = ""
  · rw [if_pos h0] at h
    simp only at h
    rw [if_pos h0] at h
    cases h
  · rw [if_neg h0] at h
    rw [hpv] at h
    simp only at h
    cases hfind : vs.find? (fun x => x.id == jsTrim (ci.variantId.getD "")) with
    | none =>
      rw [hfind] at h
      simp at h
    | some v =>
      rw [hfind] at h
      simp only at h
      rw [if_neg h0] at h
      have hvid : jsTrim (ci.variantId.getD "") = vid := by simpa using h
      rw [← hvid, hfind]
      rfl

/-- Every line the enrichment loop keeps has a present stock value at its
effective key: the product exists, and a kept variant id was found. -/
theorem resolve_wf (catalog : List Product) :
    ∀ cart : List ClientItem, ∀ e ∈ resolveCartItems catalog cart,
      (stockAt catalog (effKey catalog e)).isSome = true
  | [], e, he => by cases he
  | ci :: rest, e, he => by
    unfold resolveCartItems at he
    cases hf : findProduct catalog ci.id with
    | none =>
      rw [hf] at he
      simp only at he
      exact resolve_wf catalog rest e he
    | some found =>
      rw [hf] at he
      simp only at he
      cases List.mem_cons.mp he with
      | inr hmem => exact resolve_wf catalog rest e hmem
      | inl heq =>
        subst heq
        have hid : findProduct catalog (enrichOne found ci).id = some found := by
          rw [enrichOne_id, findProduct_id hf]
          exact hf
        cases hv : (enrichOne found ci).variantId with
        | none =>
          rw [effKey_novar_of_find hid (Or.inl hv), stockAt_none_of_find hid]
          rfl
        | some vid =>
          cases hpv : found.variants with
          | none =>
            rw [effKey_novar_of_find hid (Or.inr hpv), stockAt_none_of_find hid]
            rfl
          | some vs =>
            have hfound := enrichOne_variant_found hpv hv
            rw [effKey_var_of_find hid hv hpv, stockAt_some_of_find vid hid, hpv]
            simp only [Option.getD_some]
            cases hfd : vs.find? (fun x => x.id == vid) with
            | none =>
              rw [hfd] at hfound
              cases hfound
            | some v =>
              rfl

def zP : Product :=
  { id := "pZ", name := "Zed", price := 4, stock := some 0, variants := none }

def zSt : TenantState := { config := wCfg, products := [zP], orders := [], stockLog := [] }

def zRq : CheckoutRequest :=
  { tenantId := "demo",
    cart := [{ id := "pZ", variantId := none, qty := some 1, price := none }],
    shippingMethodId := "S1", paymentMethodId := "COD" }

/-- C2 (counterexample to the unqualified claim): a checkout of a single
product-level line whose tracked stock is exactly 0 succeeds and produces an
order with that line, yet the stock log stays empty — no stock-log row with
the order's id exists for the line, because the product branch of the
deduction loop only writes when the prior stock is strictly positive. -/
theorem c2_counterexample :
    (postCheckout zSt zRq 5).2.toOption.map (fun o => o.items.length) = some 1 ∧
    zP.stock = some 0 ∧
    (postCheckout zSt zRq 5).1.stockLog = [] := by
  refine ⟨by decide, by decide, by decide⟩

/-- C2 (corrected): after a successful checkout whose resolved lines have
pairwise-distinct effective stock keys, every line has a present prior stock
value at its key. A variant-keyed line always gets its stock clamped to
max(0, old − qty) and exactly one new matching log row with delta −qty,
reason "order" and the order's id. A product-keyed line does so only when the
prior stock was strictly positive; with stock at or below zero the stock is
untouched and — contrary to the claim — no log row at all is written. -/
theorem c2_stock_deduction (st : TenantState) (rq : CheckoutRequest) (now : ℕ)
    (st2 : TenantState) (order : Order) (e : CartLine)
    (hok : postCheckout st rq now = (st2, .ok order))
    (hnd : (order.items.map (effKey st.products)).Nodup)
    (he : e ∈ order.items) :
    (∀ vid, effKey st.products e = (e.id, some vid) →
      ∃ s, stockAt st.products (e.id, some vid) = some s ∧
        stockAt st2.products (e.id, some vid) = some (max 0 (s - (e.qty : ℚ))) ∧
        st2.stockLog.filter (rowMatch (e.id, some vid) order.id) =
          st.stockLog.filter (rowMatch (e.id, some vid) order.id) ++
          [{ id := toString now ++ "_" ++ e.id, productId := e.id,
             productName := e.name, variantId := some vid,
             variantLabel := e.variantLabel, delta := -e.qty, reason := "order",
             orderId := order.id, createdAt := order.createdAt }]) ∧
    (effKey st.products e = (e.id, none) →
      ∃ s, stockAt st.products (e.id, none) = some s ∧
        (0 < s →
          stockAt st2.products (e.id, none) = some (max 0 (s - (e.qty : ℚ))) ∧
          st2.stockLog.filter (rowMatch (e.id, none) order.id) =
            st.stockLog.filter (rowMatch (e.id, none) order.id) ++
            [{ id := toString now ++ "_" ++ e.id, productId := e.id,
               productName := e.name, variantId := none, variantLabel := none,
               delta := -e.qty, reason := "order", orderId := order.id,
               createdAt := order.createdAt }]) ∧
        (¬ 0 < s →
          stockAt st2.products (e.id, none) = some s ∧
          st2.stockLog.filter (rowMatch (e.id, none) order.id) =
            st.stockLog.filter (rowMatch (e.id, none) order.id))) := by
  obtain ⟨hitems, hoid, hcat, hcfg, hords, hprod, hlog⟩ := postCheckout_ok hok
  have hwf : (stockAt st.products (effKey st.products e)).isSome = true := by
    apply resolve_wf st.products rq.cart
    rw [← hitems]
    exact he
  constructor
  · intro vid hkey
    rw [hkey] at hwf
    cases hsv : stockAt st.products (e.id, some vid) with
    | none =>
      rw [hsv] at hwf
      simp at hwf
    | some s =>
      have main := deductAll_spec_var now (toString now) (toString now) e vid s
        order.items st.products st.stockLog he hnd hkey hsv
      refine ⟨s, rfl, ?_, ?_⟩
      · rw [hprod]
        exact main.1
      · rw [hlog, hoid, hcat]
        exact main.2
  · intro hkey
    rw [hkey] at hwf
    cases hsv : stockAt st.products (e.id, none) with
    | none =>
      rw [hsv] at hwf
      simp at hwf
    | some s =>
      have main := deductAll_spec_prod now (toString now) (toString now) e s
        order.items st.products st.stockLog he hnd hkey hsv
      refine ⟨s, rfl, ?_, ?_⟩
      · intro hpos
        refine ⟨?_, ?_⟩
        · rw [hprod]
          exact (main.1 hpos).1
        · rw [hlog, hoid, hcat]
          exact (main.1 hpos).2
      · intro hneg
        refine ⟨?_, ?_⟩
        · rw [hprod]
          exact (main.2 hneg).1
        · rw [hlog, hoid]
          exact (main.2 hneg).2

/-- C2 witness: in the two-line fixture checkout at time 7 the product-level
line "pA" (qty 2, prior stock 5) ends at stock 3 with exactly one matching
stock-log row carrying delta −2, reason "order" and the order's id. -/
theorem c2_stock_deduction_witness :
    (0 : ℚ) < 5 ∧
    stockAt (postCheckout wSt wRq 7).1.products ("pA", none) = some 3 ∧
    (postCheckout wSt wRq 7).1.stockLog.filter (rowMatch ("pA", none) wOrder7.id) =
      [{ id := "7_pA", productId := "pA", productName := "Alpha",
         variantId := none, variantLabel := none, delta := -2, reason := "order",
         orderId := wOrder7.id, createdAt := wOrder7.createdAt }] := by
  have h := (c2_stock_deduction wSt wRq 7 (postCheckout wSt wRq 7).1 wOrder7 wLineA
      (by rfl) (by decide) (by decide)).2 (by decide)
  obtain ⟨s, hs, hcase⟩ := h
  have h5 : stockAt wSt.products (wLineA.id, none) = some 5 := by decide
  have hs5 : s = 5 := Option.some_inj.mp (hs.symm.trans h5)
  subst hs5
  have hc := hcase.1 (by decide)
  refine ⟨by decide, ?_, ?_⟩
  · exact hc.1.trans (by decide)
  · exact hc.2.trans (by decide)

end Thronos

end ThronosCommerce
